import Mathlib

/-!
# carbon-relay-ng: line validation and the ingest loop

A shallow embedding of

* `_third_party/github.com/metrics20/go-metrics20/version.go` (package `metrics20`, imported by
  the relay as `m20`): schema classification of a metric id, the schema rules, the
  validation of a carbon line, and the conversion of a metric id into a `MetricSpec`;
* `carbon-relay-ng.go` (package `main`): the per-connection ingest loop `handle`, the method
  `MetricValidationLevel.UnmarshalText`, and the start-up code of `main`.

Go `string` and `[]byte` values are both finite byte sequences and are modelled by `List UInt8`.
The functions of the Go standard library that the program calls (`strings`/`bytes`, `utf8`,
`unicode`, `strconv`) are modelled in the namespaces carrying their package names.
-/

set_option autoImplicit false

deriving instance DecidableEq for Except

/-- A Go `string` or `[]byte`: a finite sequence of bytes. -/
abbrev Bytes := List UInt8

/-- A Go string literal, as its UTF-8 bytes. -/
def str (s : String) : Bytes := s.toList.flatMap String.utf8EncodeChar

/-! ## Package `unicode/utf8` -/

namespace utf8

/-- The constant `utf8.RuneError`, U+FFFD. -/
def RuneError : Nat := 0xFFFD

/-- The constant `utf8.RuneSelf`: bytes below it are single-byte runes. -/
def RuneSelf : Nat := 0x80

/-- Encoded length announced by a leading byte in `0xC2..0xF4` (low three bits of the entry of
Go's `first` table). -/
def seqSize (c : Nat) : Nat := if c < 0xE0 then 2 else if c < 0xF0 then 3 else 4

/-- Lowest accepted second byte after leading byte `c` (Go's `acceptRanges[..].lo`). -/
def acceptLo (c : Nat) : Nat := if c = 0xE0 then 0xA0 else if c = 0xF0 then 0x90 else 0x80

/-- Highest accepted second byte after leading byte `c` (Go's `acceptRanges[..].hi`). -/
def acceptHi (c : Nat) : Nat := if c = 0xED then 0x9F else if c = 0xF4 then 0x8F else 0xBF

/-- The function `utf8.DecodeRune` (and `utf8.DecodeRuneInString`): the first rune of `p` and
its width in bytes. An invalid or truncated encoding yields `(RuneError, 1)`, the empty input
`(RuneError, 0)`. -/
def DecodeRune : Bytes → Nat × Nat
  | [] => (RuneError, 0)
  | p0 :: rest =>
    let c := p0.toNat
    if c < RuneSelf then (c, 1)
    else if c < 0xC2 || 0xF4 < c then (RuneError, 1)
    else if rest.length + 1 < seqSize c then (RuneError, 1)
    else
      match rest with
      | [] => (RuneError, 1)
      | b1 :: rest1 =>
        if b1.toNat < acceptLo c || acceptHi c < b1.toNat then (RuneError, 1)
        else if seqSize c ≤ 2 then (((c &&& 0x1F) <<< 6) ||| (b1.toNat &&& 0x3F), 2)
        else
          match rest1 with
          | [] => (RuneError, 1)
          | b2 :: rest2 =>
            if b2.toNat < 0x80 || 0xBF < b2.toNat then (RuneError, 1)
            else if seqSize c ≤ 3 then
              (((c &&& 0x0F) <<< 12) ||| ((b1.toNat &&& 0x3F) <<< 6) ||| (b2.toNat &&& 0x3F), 3)
            else
              match rest2 with
              | [] => (RuneError, 1)
              | b3 :: _ =>
                if b3.toNat < 0x80 || 0xBF < b3.toNat then (RuneError, 1)
                else
                  (((c &&& 0x07) <<< 18) ||| ((b1.toNat &&& 0x3F) <<< 12)
                    ||| ((b2.toNat &&& 0x3F) <<< 6) ||| (b3.toNat &&& 0x3F), 4)

/-- Loop of `runes`: `skip` counts the bytes of the current rune still to be passed over. -/
def runesLoop : Bytes → Nat → List Nat
  | [], _ => []
  | _ :: s, skip + 1 => runesLoop s skip
  | c :: s, 0 => (DecodeRune (c :: s)).1 :: runesLoop s ((DecodeRune (c :: s)).2 - 1)

/-- The runes a Go `for _, ch := range s` loop over a string visits, in order. -/
def runes (s : Bytes) : List Nat := runesLoop s 0

/-- The function `utf8.RuneCount`. -/
def RuneCount (s : Bytes) : Nat := (runes s).length

end utf8

/-! ## Package `unicode` -/

namespace unicode

/-- The function `unicode.IsSpace`: in Latin-1 the characters `\t \n \v \f \r`, space, U+0085 and
U+00A0; above Latin-1 the code points with the `White_Space` property. -/
def IsSpace (r : Nat) : Bool :=
  if r ≤ 0xFF then
    r == 0x09 || r == 0x0A || r == 0x0B || r == 0x0C || r == 0x0D || r == 0x20
      || r == 0x85 || r == 0xA0
  else
    r == 0x1680 || (0x2000 ≤ r && r ≤ 0x200A) || r == 0x2028 || r == 0x2029
      || r == 0x202F || r == 0x205F || r == 0x3000

end unicode

/-! ## Packages `strings` and `bytes`

The two packages offer the same functions on `string` and on `[]byte`; one model serves both. -/

namespace strings

/-- The functions `strings.HasPrefix` and `bytes.HasPrefix`. -/
def HasPrefix (s pre : Bytes) : Bool := pre.isPrefixOf s

/-- The function `strings.HasSuffix`. -/
def HasSuffix (s suffix : Bytes) : Bool := suffix.isSuffixOf s

/-- The functions `strings.Contains` and `bytes.Contains`: `substr` occurs at some offset
of `s`. -/
def Contains : Bytes → Bytes → Bool
  | [], substr => substr.isEmpty
  | c :: s, substr => substr.isPrefixOf (c :: s) || Contains s substr

/-- Loop of `Count` for a non-empty separator: occurrences are counted from the left and do not
overlap; `skip` counts the bytes of the last occurrence still to be passed over. -/
def countLoop (sep : Bytes) : Bytes → Nat → Nat
  | [], _ => 0
  | _ :: s, skip + 1 => countLoop sep s skip
  | c :: s, 0 =>
    if sep.isPrefixOf (c :: s) then countLoop sep s (sep.length - 1) + 1 else countLoop sep s 0

/-- The functions `strings.Count` and `bytes.Count`: the number of non-overlapping instances of
`sep` in `s`, and one more than the number of runes of `s` when `sep` is empty. -/
def Count (s sep : Bytes) : Nat :=
  if sep.isEmpty then utf8.RuneCount s + 1 else countLoop sep s 0

/-- Loop of `Split` for a non-empty separator; `cur` is the piece being collected. -/
def splitLoop (sep : Bytes) : Bytes → Nat → Bytes → List Bytes
  | [], _, cur => [cur]
  | _ :: s, skip + 1, cur => splitLoop sep s skip cur
  | c :: s, 0, cur =>
    if sep.isPrefixOf (c :: s) then cur :: splitLoop sep s (sep.length - 1) []
    else splitLoop sep s 0 (cur ++ [c])

/-- The function `strings.Split` for a non-empty separator: the pieces between consecutive
non-overlapping occurrences of `sep`. (With an empty separator Go explodes the string into its
runes; the program never does that.) -/
def Split (s sep : Bytes) : List Bytes := splitLoop sep s 0 []

/-- Loop of `FieldsFunc`: `skip` counts the bytes of the current rune still to be passed over,
`cur` is the field being collected, if one is open. -/
def fieldsLoop (f : Nat → Bool) : Bytes → Nat → Option Bytes → List Bytes
  | [], _, none => []
  | [], _, some cur => [cur]
  | c :: s, skip + 1, cur => fieldsLoop f s skip (cur.map (fun w => w ++ [c]))
  | c :: s, 0, cur =>
    let r := if utf8.RuneSelf ≤ c.toNat then utf8.DecodeRune (c :: s) else (c.toNat, 1)
    if f r.1 then
      match cur with
      | some w => w :: fieldsLoop f s (r.2 - 1) none
      | none => fieldsLoop f s (r.2 - 1) none
    else
      fieldsLoop f s (r.2 - 1) (some (cur.getD [] ++ [c]))

/-- The functions `strings.FieldsFunc` and `bytes.FieldsFunc`: the maximal runs of runes that do
not satisfy `f`. -/
def FieldsFunc (s : Bytes) (f : Nat → Bool) : List Bytes := fieldsLoop f s 0 none

/-- The functions `strings.Fields` and `bytes.Fields`: split around runs of white space, as
defined by `unicode.IsSpace`. -/
def Fields (s : Bytes) : List Bytes := FieldsFunc s unicode.IsSpace

end strings

/-! ## Package `strconv`

Only the error result of the two parsing functions matters to the program (`_, err = ...`), so
the models return the error alone. They follow the Go implementation (Go 1.13 and later, where
digit-separating underscores and hexadecimal floats are part of the number syntax). -/

namespace strconv

/-- The constant `strconv.IntSize`, the size in bits of `int` and `uint`: 64 on the usual
64-bit platforms. -/
def IntSize : Nat := 64

/-- The errors wrapped by `*strconv.NumError`. -/
inductive NumError where
  | ErrSyntax
  | ErrRange
  | ErrBase
  | ErrBitSize
  deriving DecidableEq, Repr

/-- The helper `lower(c) = c | ('x' - 'X')`: ASCII letters to lower case. -/
def lower (c : Nat) : Nat := c ||| 0x20

/-- Digit loop of `ParseUint` on a 64-bit accumulator `n`. -/
def parseUintLoop (base cutoff maxVal : Nat) : Bytes → Nat → Except NumError Nat
  | [], n => .ok n
  | b :: s, n =>
    let c := b.toNat
    if !((0x30 ≤ c && c ≤ 0x39) || (0x61 ≤ lower c && lower c ≤ 0x7A)) then .error .ErrSyntax
    else
      let d := if 0x30 ≤ c && c ≤ 0x39 then c - 0x30 else lower c - 0x61 + 10
      if base ≤ d then .error .ErrSyntax
      else if cutoff ≤ n then .error .ErrRange
      else
        let n1 := (n * base + d) % 2 ^ 64
        if n1 < n * base || maxVal < n1 then .error .ErrRange
        else parseUintLoop base cutoff maxVal s n1

/-- The function `strconv.ParseUint(s, base, bitSize)` for an explicit base `2..36`, which is how
the program calls it (base `0`, which asks Go to read the base off a prefix of `s`, is not
modelled and is reported like the other bases outside `2..36`). A `bitSize` of `0` stands for
`IntSize`. -/
def ParseUint (s : Bytes) (base bitSize : Nat) : Except NumError Nat :=
  if s.isEmpty then .error .ErrSyntax
  else if base < 2 || 36 < base then .error .ErrBase
  else if 64 < bitSize then .error .ErrBitSize
  else
    let bits := if bitSize = 0 then IntSize else bitSize
    parseUintLoop base ((2 ^ 64 - 1) / base + 1) (2 ^ bits - 1) s 0

/-- The helper `commonPrefixLenIgnoreCase(s, pre)`, for a lower-case `pre`. -/
def commonPrefixLenIgnoreCase : Bytes → Bytes → Nat
  | b :: s, p :: pre =>
    let c := if 0x41 ≤ b.toNat && b.toNat ≤ 0x5A then b.toNat + 0x20 else b.toNat
    if c = p.toNat then commonPrefixLenIgnoreCase s pre + 1 else 0
  | _, _ => 0

/-- The helper `special(s)`: the number of bytes taken by a leading, possibly signed, `inf` or
`infinity`, or an unsigned `nan` (in any letter case), when there is one. -/
def special (s : Bytes) : Option Nat :=
  let inf (t : Bytes) (nsign : Nat) : Option Nat :=
    let n := commonPrefixLenIgnoreCase t (str "infinity")
    let n := if 3 < n && n < 8 then 3 else n
    if n = 3 || n = 8 then some (nsign + n) else none
  match s with
  | [] => none
  | b :: t =>
    if b.toNat = 0x2B || b.toNat = 0x2D then inf t 1
    else if b.toNat = 0x69 || b.toNat = 0x49 then inf (b :: t) 0
    else if b.toNat = 0x6E || b.toNat = 0x4E then
      if commonPrefixLenIgnoreCase (b :: t) (str "nan") = 3 then some 3 else none
    else none

/-- Number-proper loop of `underscoreOK`: `saw` is the class of the last byte seen, one of
`0x5E` (start), `0x30` (digit or base mark), `0x5F` (underscore), `0x21` (anything else). -/
def underscoreLoop (hex : Bool) : Bytes → Nat → Bool
  | [], saw => saw != 0x5F
  | b :: s, saw =>
    let c := b.toNat
    if (0x30 ≤ c && c ≤ 0x39) || (hex && 0x61 ≤ lower c && lower c ≤ 0x66) then
      underscoreLoop hex s 0x30
    else if c = 0x5F then
      if saw != 0x30 then false else underscoreLoop hex s 0x5F
    else if saw = 0x5F then false
    else underscoreLoop hex s 0x21

/-- The helper `underscoreOK(s)`: underscores in `s` only separate digits, or follow a base
mark. -/
def underscoreOK (s : Bytes) : Bool :=
  let s := match s with
    | b :: t => if b.toNat = 0x2D || b.toNat = 0x2B then t else s
    | [] => s
  match s with
  | b0 :: b1 :: t =>
    if b0.toNat = 0x30 && (lower b1.toNat = 0x62 || lower b1.toNat = 0x6F || lower b1.toNat = 0x78)
    then underscoreLoop (lower b1.toNat = 0x78) t 0x30
    else underscoreLoop false s 0x5E
  | _ => underscoreLoop false s 0x5E

/-- What the mantissa loop of `readFloat` has seen: all significant digits as a number `mant`
in the literal's base, their count `nd`, the position `dp` of the point among them, and the
flags of the Go loop. -/
structure Mantissa where
  mant : Nat := 0
  nd : Nat := 0
  dp : Int := 0
  sawdot : Bool := false
  sawdigits : Bool := false
  underscores : Bool := false
  deriving Repr

/-- Mantissa loop of `readFloat`: digits, underscores and at most one point; returns what is
left of the input at the first other byte. (Go keeps the first 19 digits and a truncation flag
and re-reads the literal when it needs the rest; the model keeps every digit.) -/
def readMantissa (hex : Bool) : Bytes → Mantissa → Mantissa × Bytes
  | [], m => (m, [])
  | b :: s, m =>
    let c := b.toNat
    if c = 0x5F then readMantissa hex s { m with underscores := true }
    else if c = 0x2E then
      if m.sawdot then (m, b :: s)
      else readMantissa hex s { m with sawdot := true, dp := m.nd }
    else if 0x30 ≤ c && c ≤ 0x39 then
      if c = 0x30 && m.nd = 0 then readMantissa hex s { m with sawdigits := true, dp := m.dp - 1 }
      else
        readMantissa hex s
          { m with sawdigits := true, nd := m.nd + 1,
                   mant := m.mant * (if hex then 16 else 10) + (c - 0x30) }
    else if hex && 0x61 ≤ lower c && lower c ≤ 0x66 then
      readMantissa hex s
        { m with sawdigits := true, nd := m.nd + 1, mant := m.mant * 16 + (lower c - 0x61 + 10) }
    else (m, b :: s)

/-- Exponent digit loop of `readFloat`: digits and underscores; the exponent saturates once it
has reached 10000. Returns the exponent, whether an underscore was seen, and the rest. -/
def readExpDigits : Bytes → Nat → Bool → Nat × Bool × Bytes
  | [], e, u => (e, u, [])
  | b :: s, e, u =>
    let c := b.toNat
    if c = 0x5F then readExpDigits s e true
    else if 0x30 ≤ c && c ≤ 0x39 then
      readExpDigits s (if e < 10000 then e * 10 + (c - 0x30) else e) u
    else (e, u, b :: s)

/-- A number read by `readFloat`: its value is `mant * 10 ^ exp`, or `mant * 2 ^ exp` for a
hexadecimal literal; `rest` is the input left over. -/
structure FloatLit where
  neg : Bool
  hex : Bool
  mant : Nat
  exp : Int
  rest : Bytes
  deriving Repr

/-- The helper `readFloat(s)`: sign, optional `0x`, mantissa, optional exponent (mandatory for a
hexadecimal literal); `none` where Go returns `ok = false`. -/
def readFloat (s : Bytes) : Option FloatLit :=
  match s with
  | [] => none
  | b :: t =>
    let neg := b.toNat = 0x2D
    let s1 := if b.toNat = 0x2B || b.toNat = 0x2D then t else s
    let hex := match s1 with
      | b0 :: b1 :: _ :: _ => b0.toNat = 0x30 && lower b1.toNat = 0x78
      | _ => false
    let (m, s2) := readMantissa hex (if hex then s1.drop 2 else s1) {}
    if !m.sawdigits then none
    else
      let dp : Int := if m.sawdot then m.dp else m.nd
      let scale : Int := (if hex then 4 else 1) * (dp - m.nd)
      let consumed (rest : Bytes) : Bytes := s.take (s.length - rest.length)
      match s2 with
      | e :: s3 =>
        if lower e.toNat = (if hex then 0x70 else 0x65) then
          match s3 with
          | [] => none
          | g :: s4 =>
            let esign : Int := if g.toNat = 0x2D then -1 else 1
            let s5 := if g.toNat = 0x2B || g.toNat = 0x2D then s4 else s3
            match s5 with
            | [] => none
            | d :: _ =>
              if d.toNat < 0x30 || 0x39 < d.toNat then none
              else
                let (ex, u, rest) := readExpDigits s5 0 false
                if (m.underscores || u) && !underscoreOK (consumed rest) then none
                else some ⟨neg, hex, m.mant, scale + ex * esign, rest⟩
        else if hex then none
        else if m.underscores && !underscoreOK (consumed s2) then none
        else some ⟨neg, hex, m.mant, scale, s2⟩
      | [] =>
        if hex then none
        else if m.underscores && !underscoreOK s then none
        else some ⟨neg, hex, m.mant, scale, []⟩

/-- Whether rounding `mant * b ^ exp` to the nearest float of the given size (ties to even)
overflows: the value is at least half an ulp above the largest finite float, that is at least
`2^128 - 2^103` for 32 bits and `2^1024 - 2^970` for 64 bits. -/
def overflows (bitSize b mant : Nat) (exp : Int) : Bool :=
  let limit := if bitSize = 32 then 2 ^ 128 - 2 ^ 103 else 2 ^ 1024 - 2 ^ 970
  match exp with
  | .ofNat e => decide (limit ≤ mant * b ^ e)
  | .negSucc e => decide (limit * b ^ (e + 1) ≤ mant)

/-- The error result of `strconv.ParseFloat(s, bitSize)`: `none` when `s` is, in full, a special
value or a well-formed decimal or hexadecimal floating-point number whose nearest float of the
given size is finite; `ErrSyntax` when it is not well formed; `ErrRange` when it is too
large. -/
def ParseFloat (s : Bytes) (bitSize : Nat) : Option NumError :=
  match special s with
  | some n => if n = s.length then none else some .ErrSyntax
  | none =>
    match readFloat s with
    | none => some .ErrSyntax
    | some lit =>
      if !lit.rest.isEmpty then some .ErrSyntax
      else if overflows bitSize (if lit.hex then 2 else 10) lit.mant lit.exp then some .ErrRange
      else none

end strconv

/-! ## Package `metrics20` (`version.go`) -/

namespace metrics20

open strings

/-- The type `metricVersion` with its three constants. -/
inductive metricVersion where
  /-- `bar.bytes` or whatever -/
  | Legacy
  /-- `foo=bar.unit=B` -/
  | M20
  /-- `foo_is_bar.unit_is_B` -/
  | M20NoEquals
  deriving DecidableEq, Repr

open metricVersion

/-- The `error` values built in `version.go`, one constructor per message; `metric` is the
metric id formatted into the message. -/
inductive Error where
  /-- `metric '%s' contains illegal char '%s'`, with the offending rune (or byte) -/
  | illegalChar (metric : Bytes) (ch : Nat)
  /-- `metric '%s' has an empty node` -/
  | emptyNode (metric : Bytes)
  /-- `metric '%s' has both = and _is_` -/
  | bothEqualsAndIs (metric : Bytes)
  /-- `metric '%s' has no unit tag` -/
  | noUnitTag (metric : Bytes)
  /-- `metric '%s' has no target_type tag` -/
  | noTargetTypeTag (metric : Bytes)
  /-- `metric '%s': must have at least one tag_k/tag_v pair beyond unit and target_type` -/
  | noTagPair (metric : Bytes)
  /-- `packet must consist of 3 fields` -/
  | packetFields
  /-- `value field is not a float or int` -/
  | valueNotFloat
  /-- `timestamp field is not a unix timestamp` -/
  | timestampNotUnix
  /-- `bad metric spec: more than 1 equals` -/
  | moreThanOneEquals
  /-- `bad metric spec: tag_k and tag_v must be non-empty strings` -/
  | emptyTagKeyOrValue
  /-- `duplicate tag key '%s'` -/
  | duplicateTagKey (key : Bytes)
  deriving DecidableEq, Repr

/-- The result of a Go function returning `error`: `none` is `nil`. -/
abbrev Result := Option Error

/-- The function `GetVersion`: the expected version of a metric, without validating it. -/
def GetVersion (metric_in : Bytes) : metricVersion :=
  if Contains metric_in (str "=") then M20
  else if Contains metric_in (str "_is_") then M20NoEquals
  else Legacy

/-- The variable `byteEquals`. -/
def byteEquals : Bytes := str "="

/-- The variable `byteIs`. -/
def byteIs : Bytes := str "_is_"

/-- The function `GetVersionB`: like `GetVersion` but for byte array input. -/
def GetVersionB (metric_in : Bytes) : metricVersion :=
  if Contains metric_in byteEquals then M20
  else if Contains metric_in byteIs then M20NoEquals
  else Legacy

/-- The test in the loops of `ValidateSensibleChars` and `ValidateSensibleCharsB`: `ch` is
none of `a-z`, `A-Z`, `0-9`, `_`, `-`, `.`. -/
def illegal (ch : Nat) : Bool :=
  !(0x61 ≤ ch && ch ≤ 0x7A) && !(0x41 ≤ ch && ch ≤ 0x5A) && !(0x30 ≤ ch && ch ≤ 0x39)
    && ch != 0x5F && ch != 0x2D && ch != 0x2E

/-- The character set `[A-Za-z0-9_.-]`, on code points. -/
def sensible (ch : Nat) : Prop :=
  (0x61 ≤ ch ∧ ch ≤ 0x7A) ∨ (0x41 ≤ ch ∧ ch ≤ 0x5A) ∨ (0x30 ≤ ch ∧ ch ≤ 0x39)
    ∨ ch = 0x5F ∨ ch = 0x2E ∨ ch = 0x2D

instance (ch : Nat) : Decidable (sensible ch) := by unfold sensible; infer_instance

/-- Loop of `ValidateSensibleChars`, a `range` over the runes of the string; `skip` counts the
bytes of the current rune still to be passed over. -/
def sensibleCharsLoop (metric_id : Bytes) : Bytes → Nat → Result
  | [], _ => none
  | _ :: s, skip + 1 => sensibleCharsLoop metric_id s skip
  | c :: s, 0 =>
    let r := utf8.DecodeRune (c :: s)
    if illegal r.1 then some (.illegalChar metric_id r.1)
    else sensibleCharsLoop metric_id s (r.2 - 1)

/-- The function `ValidateSensibleChars`: the metric id only contains characters that are
commonly understood to be sensible and useful. -/
def ValidateSensibleChars (metric_id : Bytes) : Result :=
  sensibleCharsLoop metric_id metric_id 0

/-- Loop of `ValidateSensibleCharsB`, a `range` over the bytes of the slice. -/
def sensibleCharsLoopB (metric_id : Bytes) : Bytes → Result
  | [] => none
  | ch :: s =>
    if illegal ch.toNat then some (.illegalChar metric_id ch.toNat)
    else sensibleCharsLoopB metric_id s

/-- The function `ValidateSensibleCharsB`: like `ValidateSensibleChars` but for byte array
inputs. -/
def ValidateSensibleCharsB (metric_id : Bytes) : Result :=
  sensibleCharsLoopB metric_id metric_id

/-- The function `InitialValidation`: checks the basic form of metric keys. -/
def InitialValidation (metric_id : Bytes) (version : metricVersion) : Result :=
  if version = Legacy then
    if Contains metric_id (str "..") then some (.emptyNode metric_id)
    else ValidateSensibleChars metric_id
  else
    let tags : Result :=
      if version = M20 then
        if Contains metric_id (str "_is_") then some (.bothEqualsAndIs metric_id)
        else if !HasPrefix metric_id (str "unit=") && !Contains metric_id (str ".unit=") then
          some (.noUnitTag metric_id)
        else if !HasPrefix metric_id (str "target_type=")
            && !Contains metric_id (str ".target_type=") then
          some (.noTargetTypeTag metric_id)
        else none
      else
        if Contains metric_id (str "=") then some (.bothEqualsAndIs metric_id)
        else if !HasPrefix metric_id (str "unit_is_") && !Contains metric_id (str ".unit_is_") then
          some (.noUnitTag metric_id)
        else if !HasPrefix metric_id (str "target_type_is_")
            && !Contains metric_id (str ".target_type_is_") then
          some (.noTargetTypeTag metric_id)
        else none
    match tags with
    | some err => some err
    | none => if Count metric_id (str ".") < 2 then some (.noTagPair metric_id) else none

/-- The variable `doubleDot`. -/
def doubleDot : Bytes := str ".."
/-- The variable `m20Is`. -/
def m20Is : Bytes := str "_is_"
/-- The variable `m20UnitPre`. -/
def m20UnitPre : Bytes := str "unit="
/-- The variable `m20UnitMid`. -/
def m20UnitMid : Bytes := str ".unit="
/-- The variable `m20TTPre`. -/
def m20TTPre : Bytes := str "target_type="
/-- The variable `m20TTMid`. -/
def m20TTMid : Bytes := str ".target_type="
/-- The variable `m20NEIS`. -/
def m20NEIS : Bytes := str "="
/-- The variable `m20NEUnitPre`. -/
def m20NEUnitPre : Bytes := str "unit_is_"
/-- The variable `m20NEUnitMid`. -/
def m20NEUnitMid : Bytes := str ".unit_is_"
/-- The variable `m20NETTPre`. -/
def m20NETTPre : Bytes := str "target_type_is_"
/-- The variable `m20NETTMid`. -/
def m20NETTMid : Bytes := str ".target_type_is_"
/-- The variable `dot`. -/
def dot : Bytes := str "."

/-- The function `InitialValidationB`: like `InitialValidation` but for byte array inputs. -/
def InitialValidationB (metric_id : Bytes) (version : metricVersion) : Result :=
  if version = Legacy then
    if Contains metric_id doubleDot then some (.emptyNode metric_id)
    else ValidateSensibleCharsB metric_id
  else
    let tags : Result :=
      if version = M20 then
        if Contains metric_id m20Is then some (.bothEqualsAndIs metric_id)
        else if !HasPrefix metric_id m20UnitPre && !Contains metric_id m20UnitMid then
          some (.noUnitTag metric_id)
        else if !HasPrefix metric_id m20TTPre && !Contains metric_id m20TTMid then
          some (.noTargetTypeTag metric_id)
        else none
      else
        if Contains metric_id m20NEIS then some (.bothEqualsAndIs metric_id)
        else if !HasPrefix metric_id m20NEUnitPre && !Contains metric_id m20NEUnitMid then
          some (.noUnitTag metric_id)
        else if !HasPrefix metric_id m20NETTPre && !Contains metric_id m20NETTMid then
          some (.noTargetTypeTag metric_id)
        else none
    match tags with
    | some err => some err
    | none => if Count metric_id dot < 2 then some (.noTagPair metric_id) else none

/-- The function `ValidatePacket`: validates a carbon message. -/
def ValidatePacket (buf : Bytes) : Result :=
  match Fields buf with
  | [f0, f1, f2] =>
    match InitialValidationB f0 (GetVersionB f0) with
    | some err => some err
    | none =>
      match strconv.ParseFloat f1 32 with
      | some _ => some .valueNotFloat
      | none =>
        match strconv.ParseUint f2 10 0 with
        | .error _ => some .timestampNotUnix
        | .ok _ => none
  | _ => some .packetFields

end metrics20

/-! ## Package `main` (`carbon-relay-ng.go`): the ingest loop -/

namespace relay

open metrics20

/-- The error of a `ReadLine` call: `io.EOF` or any other error. -/
inductive ReadError where
  | EOF
  | other
  deriving DecidableEq, Repr

/-- One result `part, isprefix, err` of `r.ReadLine()`. -/
structure ReadResult where
  part : Bytes
  isPrefix : Bool
  err : Option ReadError
  deriving DecidableEq, Repr

/-- One call `badMetrics.Add(metric, line, err)`. -/
structure BadMetric where
  metric : Bytes
  line : Bytes
  err : Error
  deriving DecidableEq, Repr

/-- The state of one run of `handle`: the buffer `acc`, the number of `numIn.Inc(1)` and of
`numInvalid.Inc(1)` calls made so far, the `badMetrics.Add` calls and the `table.Dispatch`
calls made so far, in order, and whether the loop has been left. -/
structure State where
  acc : Bytes
  numIn : Nat
  numInvalid : Nat
  badMetrics : List BadMetric
  dispatched : List Bytes
  closed : Bool
  deriving DecidableEq, Repr

/-- The variable `emptyByteStr`. -/
def emptyByteStr : Bytes := str ""

/-- The state in which `handle` enters its loop. -/
def State.init : State := ⟨[], 0, 0, [], [], false⟩

/-- One iteration of the loop of `handle`, on the result `r` of its `ReadLine` call. The
validator `validate` stands for the call `m20.ValidatePacket(buf, level)`: the vendored
`version.go` has `ValidatePacket(buf)`, without a level, so the validator is a parameter here,
to be instantiated with `metrics20.ValidatePacket`. (`log.Error` on a read error other than EOF
is not part of the state.) -/
def step (validate : Bytes → Result) (s : State) (r : ReadResult) : State :=
  if s.closed then s
  else
    let acc := s.acc ++ r.part
    if r.isPrefix then { s with acc := acc }
    else
      let buf := acc
      match r.err with
      | some _ => { s with acc := [], closed := true }
      | none =>
        match validate buf with
        | some err =>
          let fields := strings.Fields buf
          let metric := match fields with
            | f0 :: _ => f0
            | [] => emptyByteStr
          { s with acc := [], numIn := s.numIn + 1,
                   badMetrics := s.badMetrics ++ [⟨metric, buf, err⟩],
                   numInvalid := s.numInvalid + 1 }
        | none =>
          { s with acc := [], numIn := s.numIn + 1, dispatched := s.dispatched ++ [buf] }

/-- The loop of `handle` from state `s`, over the successive results of `ReadLine`. -/
def handleFrom (validate : Bytes → Result) (s : State) (reads : List ReadResult) : State :=
  reads.foldl (step validate) s

/-- The function `handle`, run over the successive results of `ReadLine` on its connection. -/
def handle (validate : Bytes → Result) (reads : List ReadResult) : State :=
  handleFrom validate State.init reads

/-- What every reachable state of `handle` satisfies: only validated lines were dispatched, and
the counters account for every line. -/
def Accounted (validate : Bytes → Result) (s : State) : Prop :=
  (∀ b ∈ s.dispatched, validate b = none) ∧
  s.numIn = s.numInvalid + s.dispatched.length ∧
  s.badMetrics.length = s.numInvalid

end relay

/-! ## Package `metrics20` (`version.go`): metric specs -/

namespace metrics20

open strings metricVersion

/-- The method `metricVersion.TagDelimiter`: `=` for `M20`, `_is_` for `M20NoEquals`; `none`
where the Go method panics (`TagDelimiter() called on metricVersion ...`). -/
def TagDelimiter (version : metricVersion) : Option Bytes :=
  if version = M20 then some (str "=")
  else if version = M20NoEquals then some (str "_is_")
  else none

/-- The function `IsMetric20`. -/
def IsMetric20 (metric_in : Bytes) : Bool :=
  GetVersion metric_in = M20 || GetVersion metric_in = M20NoEquals

/-- A Go `map[string]string`, as the list of its entries, one per key. -/
abbrev Tags := List (Bytes × Bytes)

/-- The lookup `tags[key]` with its `ok` flag: `none` when the key is absent. -/
def Tags.get (tags : Tags) (key : Bytes) : Option Bytes := tags.lookup key

/-- The assignment `tags[key] = val`: replaces the value of a key that is present, adds the entry
otherwise. -/
def Tags.set : Tags → Bytes → Bytes → Tags
  | [], key, val => [(key, val)]
  | (k, v) :: tags, key, val =>
    if k = key then (key, val) :: tags else (k, v) :: Tags.set tags key val

/-- The type `MetricSpec`. -/
structure MetricSpec where
  Id : Bytes
  Tags : Tags
  deriving DecidableEq, Repr

/-- What a call of `NewMetricSpec` does: return `(metric, nil)`, return `(nil, err)`, or
panic. -/
inductive Outcome where
  | ok (metric : MetricSpec)
  | error (err : Error)
  | panicked
  deriving DecidableEq, Repr

/-- The string `fmt.Sprintf("n%d", i)`: the letter `n` and `i` in decimal. -/
def nKey (i : Nat) : Bytes := str "n" ++ str (Nat.repr i)

/-- The unit cleanup of `NewMetricSpec`: under key `unit`, a value ending in `ps` has its last
two bytes replaced by `/s`. -/
def cleanUnit (key val : Bytes) : Bytes :=
  if key = str "unit" && HasSuffix val (str "ps") then val.take (val.length - 2) ++ str "/s"
  else val

/-- The loop of `NewMetricSpec` over the nodes from index `i` on, with the tags built so far. -/
def tagsLoop (del : Bytes) : List Bytes → Nat → Tags → Except Error Tags
  | [], _, tags => .ok tags
  | node :: nodes, i, tags =>
    let tag := Split node del
    if 2 < tag.length then .error .moreThanOneEquals
    else if tag.length < 2 then tagsLoop del nodes (i + 1) (tags.set (nKey (i + 1)) node)
    else if tag.getD 0 [] = [] || tag.getD 1 [] = [] then .error .emptyTagKeyOrValue
    else
      let key := tag.getD 0 []
      let val := tag.getD 1 []
      if (tags.get key).isSome then .error (.duplicateTagKey key)
      else tagsLoop del nodes (i + 1) (tags.set key (cleanUnit key val))

/-- The function `NewMetricSpec`: takes a metric key, validates it (unit tag, etc) and converts
it to a `MetricSpec`, setting nX tags, cleans up ps to /s unit. -/
def NewMetricSpec (id : Bytes) : Outcome :=
  let version := GetVersion id
  match InitialValidation id version with
  | some err => .error err
  | none =>
    let nodes := Split id (str ".")
    match TagDelimiter version with
    | none => .panicked
    | some del =>
      match tagsLoop del nodes 0 [] with
      | .error err => .error err
      | .ok tags => .ok ⟨id, tags⟩

/-- Modelled from the spec: the type `m20.LegacyMetricValidation` with its constants
`m20.Strict`, `m20.Medium` and `m20.None`, which `carbon-relay-ng.go` uses and the vendored
`version.go` does not declare; the spec names the three levels `strict`, `medium`, `none`. -/
inductive LegacyMetricValidation where
  | Strict
  | Medium
  | None
  deriving DecidableEq, Repr

/-- Modelled from the spec: the schema rules of the two-argument `m20.ValidatePacket(buf, level)`
that `handle` calls, which is not in the vendored `version.go`. The spec (4.1 step 3 and the rule
table of section 6): the rules of the id's schema apply per the selected level; `strict` applies
all of them; `medium` relaxes the character set (the `[A-Za-z0-9_.-]` rule of Legacy ids);
`none` skips all schema rules. -/
def schemaRules (metric_id : Bytes) (version : metricVersion) (level : LegacyMetricValidation) :
    Result :=
  match level with
  | .Strict => InitialValidationB metric_id version
  | .Medium =>
    if version = Legacy then
      if Contains metric_id doubleDot then some (.emptyNode metric_id) else none
    else InitialValidationB metric_id version
  | .None => none

/-- Modelled from the spec: the two-argument validator `m20.ValidatePacket(buf, level)` that
`handle` calls, which is not in the vendored `version.go`. The spec (4.1): split on white space
and require exactly three fields; classify the id's schema; apply the schema rules per the
level, `none` skipping them all but still requiring three fields; parse field 2 as a float in
32-bit range and field 3 as an unsigned decimal integer; the first offending rule is
returned. -/
def ValidatePacketLevel (buf : Bytes) (level : LegacyMetricValidation) : Result :=
  match Fields buf with
  | [f0, f1, f2] =>
    match schemaRules f0 (GetVersionB f0) level with
    | some err => some err
    | none =>
      match strconv.ParseFloat f1 32 with
      | some _ => some .valueNotFloat
      | none =>
        match strconv.ParseUint f2 10 0 with
        | .error _ => some .timestampNotUnix
        | .ok _ => none
  | _ => some .packetFields

end metrics20

/-! ## Package `main` (`carbon-relay-ng.go`): configuration and start-up -/

namespace relay

open metrics20

/-- The type `MetricValidationLevel`. -/
structure MetricValidationLevel where
  Level : LegacyMetricValidation
  deriving DecidableEq, Repr

/-- The error built in `UnmarshalText`: `Invalid validation level '%s'. Valid validation levels
are 'strict', 'medium', and 'none'.`, with the text formatted into it. -/
inductive LevelError where
  | invalidLevel (text : Bytes)
  deriving DecidableEq, Repr

/-- The map `validationLevels` of `UnmarshalText`. -/
def validationLevels : List (Bytes × LegacyMetricValidation) :=
  [(str "strict", .Strict), (str "medium", .Medium), (str "none", .None)]

/-- The method `MetricValidationLevel.UnmarshalText`: the receiver after the call and the
returned error. `zero` is the zero value of `m20.LegacyMetricValidation`, which the map lookup
yields for a missing key (the declaration of the type is not in the vendored sources). -/
def UnmarshalText (zero : LegacyMetricValidation) (_l : MetricValidationLevel) (text : Bytes) :
    MetricValidationLevel × Option LevelError :=
  match validationLevels.lookup text with
  | some level => (⟨level⟩, none)
  | none => (⟨zero⟩, some (.invalidLevel text))

/-- What the start-up code of `main` gets from its environment, up to the listening stage:
whether `toml.DecodeFile` fails, the configured log level, the `-cpuprofile` flag and whether
`os.Create` fails on it, the configured instance, the instrumentation address and whether it
fails to resolve, whether `time.ParseDuration(config.Bad_metrics_max_age)` fails, and for each
command of `config.Init`, in order, whether `applyCommand` fails. -/
structure Startup where
  decodeErr : Bool
  Log_level : Bytes
  cpuprofile : Bytes
  createErr : Bool
  Instance : Bytes
  Graphite_addr : Bytes
  resolveErr : Bool
  maxAgeErr : Bool
  Init : List Bool
  deriving DecidableEq, Repr

/-- How the start-up code of `main` ends: the process exits with a status (`os.Exit(code)`,
`log.Fatal`, which exits with status 1, or `main` returning, which exits with status 0), or
start-up reaches the listening stage (the goagain protocol and the listeners). -/
inductive StartupEnd where
  | exit (code : Nat)
  | listening
  deriving DecidableEq, Repr

/-- The keys of the map `levels` of `main`. -/
def levels : List Bytes :=
  [str "critical", str "error", str "warning", str "notice", str "info", str "debug"]

/-- The loop of `main` over `config.Init`: whether some command fails to apply. -/
def initFails : List Bool → Bool
  | [] => false
  | err :: cmds => if err then true else initFails cmds

/-- The function `main`, from the decoding of the config file to the listening stage. -/
def main (env : Startup) : StartupEnd :=
  if env.decodeErr then .exit 0
  else if !levels.contains env.Log_level then .exit 0
  else if env.cpuprofile != str "" && env.createErr then .exit 1
  else if env.Instance.length = 0 then .exit 1
  else if env.Graphite_addr != str "" && env.resolveErr then .exit 1
  else if env.maxAgeErr then .exit 1
  else if initFails env.Init then .exit 1
  else .listening

/-- A start-up in which nothing fails: the config file decodes, the log level is `info`, no
CPU profile is asked for, the instance is `relay1`, there is no instrumentation address, the
maximum age parses and there are no init commands. -/
def Startup.good : Startup :=
  { decodeErr := false, Log_level := str "info", cpuprofile := str "", createErr := false,
    Instance := str "relay1", Graphite_addr := str "", resolveErr := false, maxAgeErr := false,
    Init := [] }

end relay

/-! ## Notions used to state the properties -/

namespace strconv

/-- The number that a string of ASCII decimal digits denotes. -/
def decimalValue (s : Bytes) : Nat := s.foldl (fun n b => n * 10 + (b.toNat - 0x30)) 0

end strconv

namespace metrics20

open strings

/-- The key under which `NewMetricSpec` files the node at index `i`: the part before the
delimiter for a node `key<delimiter>value`, the positional key `n<i+1>` otherwise. -/
def nodeKey (del : Bytes) (i : Nat) (node : Bytes) : Bytes :=
  match Split node del with
  | [key, _] => key
  | _ => nKey (i + 1)

/-- The keys of the tags built from the nodes `nodes`, the first of which has index `i`. -/
def builtKeys (del : Bytes) : List Bytes → Nat → List Bytes
  | [], _ => []
  | node :: nodes, i => nodeKey del i node :: builtKeys del nodes (i + 1)

/-- A node on which the loop of `NewMetricSpec` fails, `keys` being the keys of the tags built
so far: the node contains the delimiter more than once, or it is `key<delimiter>value` with an
empty key, an empty value, or a key among `keys`. -/
def badNode (del : Bytes) (keys : List Bytes) (node : Bytes) : Prop :=
  2 ≤ Count node del ∨
    ∃ k v, Split node del = [k, v] ∧ (k = [] ∨ v = [] ∨ k ∈ keys)

end metrics20

/-! # Theorems

## Facts about the library models -/

namespace utf8

theorem le_or_left (a b : Nat) : a ≤ a ||| b := by
  induction a using Nat.strongRecOn generalizing b with
  | _ a ih =>
    rcases Nat.eq_zero_or_pos a with h0 | hpos
    · subst h0; exact Nat.zero_le _
    · have h1 := ih (a / 2) (by omega) (b / 2)
      have h2 : (a ||| b) / 2 = a / 2 ||| b / 2 := Nat.or_div_two
      have h3 : a % 2 = 1 → (a ||| b) % 2 = 1 := fun h => Nat.or_mod_two_eq_one.mpr (Or.inl h)
      omega

theorem le_or_right (a b : Nat) : b ≤ a ||| b := by
  rw [Nat.or_comm]; exact le_or_left b a

/-- A byte below `RuneSelf` decodes to itself, with width one. -/
theorem DecodeRune_ascii (p0 : UInt8) (rest : Bytes) (h : p0.toNat < 0x80) :
    DecodeRune (p0 :: rest) = (p0.toNat, 1) := by
  simp [DecodeRune, RuneSelf, h]

theorem two_byte_ge (c x : Nat) : (c % 32) * 64 ≤ ((c &&& 0x1F) <<< 6) ||| x := by
  have m : c &&& 0x1F = c % 32 := Nat.and_pow_two_sub_one_eq_mod _ 5
  have a := le_or_left ((c &&& 0x1F) <<< 6) x
  have e : (c &&& 0x1F) <<< 6 = (c % 32) * 64 := by rw [Nat.shiftLeft_eq, m]
  omega

theorem three_byte_ge (c b x : Nat) :
    (c % 16) * 4096 ≤ ((c &&& 0x0F) <<< 12) ||| ((b &&& 0x3F) <<< 6) ||| x ∧
    (b % 64) * 64 ≤ ((c &&& 0x0F) <<< 12) ||| ((b &&& 0x3F) <<< 6) ||| x := by
  have m : c &&& 0x0F = c % 16 := Nat.and_pow_two_sub_one_eq_mod _ 4
  have m6 : b &&& 0x3F = b % 64 := Nat.and_pow_two_sub_one_eq_mod _ 6
  have a1 := le_or_left ((c &&& 0x0F) <<< 12 ||| (b &&& 0x3F) <<< 6) x
  have a2 := le_or_left ((c &&& 0x0F) <<< 12) ((b &&& 0x3F) <<< 6)
  have a3 := le_or_right ((c &&& 0x0F) <<< 12) ((b &&& 0x3F) <<< 6)
  have e1 : (c &&& 0x0F) <<< 12 = (c % 16) * 4096 := by rw [Nat.shiftLeft_eq, m]
  have e2 : (b &&& 0x3F) <<< 6 = (b % 64) * 64 := by rw [Nat.shiftLeft_eq, m6]
  omega

theorem four_byte_ge (c b x y : Nat) :
    (c % 8) * 262144 ≤ ((c &&& 0x07) <<< 18) ||| ((b &&& 0x3F) <<< 12) ||| x ||| y ∧
    (b % 64) * 4096 ≤ ((c &&& 0x07) <<< 18) ||| ((b &&& 0x3F) <<< 12) ||| x ||| y := by
  have m : c &&& 0x07 = c % 8 := Nat.and_pow_two_sub_one_eq_mod _ 3
  have m6 : b &&& 0x3F = b % 64 := Nat.and_pow_two_sub_one_eq_mod _ 6
  have a0 := le_or_left ((c &&& 0x07) <<< 18 ||| (b &&& 0x3F) <<< 12 ||| x) y
  have a1 := le_or_left ((c &&& 0x07) <<< 18 ||| (b &&& 0x3F) <<< 12) x
  have a2 := le_or_left ((c &&& 0x07) <<< 18) ((b &&& 0x3F) <<< 12)
  have a3 := le_or_right ((c &&& 0x07) <<< 18) ((b &&& 0x3F) <<< 12)
  have e1 : (c &&& 0x07) <<< 18 = (c % 8) * 262144 := by rw [Nat.shiftLeft_eq, m]
  have e2 : (b &&& 0x3F) <<< 12 = (b % 64) * 4096 := by rw [Nat.shiftLeft_eq, m6]
  omega

/-- A leading byte from `RuneSelf` on never decodes to an ASCII rune. -/
theorem DecodeRune_ge (p0 : UInt8) (rest : Bytes) (h : 0x80 ≤ p0.toNat) :
    0x80 ≤ (DecodeRune (p0 :: rest)).1 := by
  rcases rest with _ | ⟨b1, _ | ⟨b2, _ | ⟨b3, rest3⟩⟩⟩
  · simp only [DecodeRune, RuneSelf, RuneError]
    split_ifs <;> omega
  · simp only [DecodeRune, RuneSelf, RuneError]
    have k2 := two_byte_ge p0.toNat (b1.toNat &&& 0x3F)
    split_ifs with h1 h2 h3 h4 h5 <;> try (simp; done)
    · simp; omega
    · simp only [acceptLo, acceptHi, seqSize, Bool.or_eq_true, decide_eq_true_eq] at h2 h4 h5
      split_ifs at h5 <;> omega
  · simp only [DecodeRune, RuneSelf, RuneError]
    have k2 := two_byte_ge p0.toNat (b1.toNat &&& 0x3F)
    have k3 := three_byte_ge p0.toNat b1.toNat (b2.toNat &&& 0x3F)
    split_ifs with h1 h2 h3 h4 h5 h6 h7 <;> try (simp; done)
    · simp; omega
    · simp only [acceptLo, acceptHi, seqSize, Bool.or_eq_true, decide_eq_true_eq] at h2 h4 h5
      split_ifs at h5 <;> omega
    · simp only [acceptLo, acceptHi, seqSize, Bool.or_eq_true, decide_eq_true_eq] at h2 h4 h5 h7
      split_ifs at h4 h5 h7 <;> omega
  · simp only [DecodeRune, RuneSelf, RuneError]
    have k2 := two_byte_ge p0.toNat (b1.toNat &&& 0x3F)
    have k3 := three_byte_ge p0.toNat b1.toNat (b2.toNat &&& 0x3F)
    have k4 := four_byte_ge p0.toNat b1.toNat ((b2.toNat &&& 0x3F) <<< 6) (b3.toNat &&& 0x3F)
    split_ifs with h1 h2 h3 h4 h5 h6 h7 h8 <;> try (simp; done)
    · simp; omega
    · simp only [acceptLo, acceptHi, seqSize, Bool.or_eq_true, decide_eq_true_eq] at h2 h4 h5
      split_ifs at h5 <;> omega
    · simp only [acceptLo, acceptHi, seqSize, Bool.or_eq_true, decide_eq_true_eq] at h2 h4 h5 h7
      split_ifs at h4 h5 h7 <;> omega
    · simp only [acceptLo, acceptHi, seqSize, Bool.or_eq_true, decide_eq_true_eq] at h2 h4 h5 h7
      split_ifs at h4 h5 h7 <;> omega

end utf8

namespace strings

/-- `Contains` decides the infix relation on byte sequences. -/
theorem Contains_iff (s substr : Bytes) : Contains s substr = true ↔ substr <:+: s := by
  induction s with
  | nil =>
    cases substr <;> simp [Contains]
  | cons c s ih =>
    rw [Contains, Bool.or_eq_true, ih, List.isPrefixOf_iff_prefix, List.infix_cons_iff]

/-- `HasPrefix` decides the prefix relation on byte sequences. -/
theorem HasPrefix_iff (s pre : Bytes) : HasPrefix s pre = true ↔ pre <+: s := by
  rw [HasPrefix, List.isPrefixOf_iff_prefix]

theorem countLoop_single (d : UInt8) (s : Bytes) : countLoop [d] s 0 = s.count d := by
  induction s with
  | nil => rfl
  | cons c s ih =>
    by_cases h : c = d
    · subst h
      simp [countLoop, List.isPrefixOf, ih]
    · have h' : ¬ d = c := fun e => h e.symm
      simp [countLoop, List.isPrefixOf, ih, h, h', List.count_cons]

/-- For a one-byte separator `Count` counts the occurrences of that byte. -/
theorem Count_single (d : UInt8) (s : Bytes) : Count s [d] = s.count d := by
  simp [Count, countLoop_single]

theorem splitLoop_length (sep : Bytes) (s : Bytes) (skip : Nat) (cur : Bytes) :
    (splitLoop sep s skip cur).length = countLoop sep s skip + 1 := by
  induction s generalizing skip cur with
  | nil => simp [splitLoop, countLoop]
  | cons c s ih =>
    cases skip with
    | succ k => simp [splitLoop, countLoop, ih]
    | zero =>
      simp only [splitLoop, countLoop]
      split_ifs <;> simp [ih]

/-- For a non-empty separator `Split` returns one piece more than `Count` counts. -/
theorem Split_length (s sep : Bytes) (h : sep ≠ []) :
    (Split s sep).length = Count s sep + 1 := by
  have : sep.isEmpty = false := by cases sep <;> simp_all
  simp [Split, Count, this, splitLoop_length]

end strings

namespace metrics20

open strings

/-- A rune outside ASCII is none of the sensible characters. -/
theorem illegal_of_ge (ch : Nat) (h : 0x80 ≤ ch) : illegal ch = true := by
  simp only [illegal, Bool.and_eq_true, Bool.not_eq_true', Bool.and_eq_false_iff,
    decide_eq_false_iff_not, bne_iff_ne, ne_eq]
  omega

theorem sensibleCharsLoop_iff_runes (m s : Bytes) (skip : Nat) :
    sensibleCharsLoop m s skip = none ↔ ∀ ch ∈ utf8.runesLoop s skip, illegal ch = false := by
  induction s generalizing skip with
  | nil => simp [sensibleCharsLoop, utf8.runesLoop]
  | cons c s ih =>
    cases skip with
    | succ k => simp [sensibleCharsLoop, utf8.runesLoop, ih]
    | zero =>
      simp only [sensibleCharsLoop, utf8.runesLoop, List.mem_cons, forall_eq_or_imp]
      split_ifs with h
      · simp [h]
      · simp [h, ih]

theorem sensibleCharsLoop_iff_bytes (m s : Bytes) :
    sensibleCharsLoop m s 0 = none ↔ ∀ b ∈ s, illegal b.toNat = false := by
  induction s with
  | nil => simp [sensibleCharsLoop]
  | cons c s ih =>
    simp only [sensibleCharsLoop, List.mem_cons, forall_eq_or_imp]
    by_cases hc : c.toNat < 0x80
    · rw [utf8.DecodeRune_ascii c s hc]
      simp only
      split_ifs with h
      · simp [h]
      · simp [h, ih]
    · have h1 := illegal_of_ge _ (utf8.DecodeRune_ge c s (by omega))
      have h2 := illegal_of_ge c.toNat (by omega)
      simp [h1, h2]

theorem sensibleCharsLoopB_iff (m s : Bytes) :
    sensibleCharsLoopB m s = none ↔ ∀ b ∈ s, illegal b.toNat = false := by
  induction s with
  | nil => simp [sensibleCharsLoopB]
  | cons c s ih =>
    simp only [sensibleCharsLoopB, List.mem_cons, forall_eq_or_imp]
    split_ifs with h
    · simp [h]
    · simp [h, ih]

end metrics20

namespace metrics20

open strings metricVersion

theorem illegal_eq_false_iff (ch : Nat) : illegal ch = false ↔ sensible ch := by
  simp only [illegal, sensible, Bool.and_eq_false_iff, Bool.not_eq_false', Bool.and_eq_true,
    decide_eq_true_eq, bne_eq_false_iff_eq]
  omega

theorem str_dot : str "." = [0x2E] := by decide

/-- `Count` of the separator `"."` is the number of `.` bytes. -/
theorem Count_dot (s : Bytes) : Count s (str ".") = s.count 0x2E := by
  rw [str_dot, Count_single]

theorem ValidatePacket_of_length_ne (buf : Bytes) (h : (Fields buf).length ≠ 3) :
    ValidatePacket buf = some .packetFields := by
  unfold ValidatePacket
  split
  · next f0 f1 f2 hf => simp [hf] at h
  · rfl

theorem ValidatePacket_of_fields (buf f0 f1 f2 : Bytes) (h : Fields buf = [f0, f1, f2]) :
    ValidatePacket buf =
      match InitialValidationB f0 (GetVersionB f0) with
      | some err => some err
      | none =>
        match strconv.ParseFloat f1 32 with
        | some _ => some .valueNotFloat
        | none =>
          match strconv.ParseUint f2 10 0 with
          | .error _ => some .timestampNotUnix
          | .ok _ => none := by
  simp only [ValidatePacket, h]

/-- C1: `ValidatePacket buf` returns no error exactly when splitting `buf` on white space
yields exactly three fields, the first passes `InitialValidationB` under the version that
`GetVersionB` assigns to it, the second parses as a float in 32-bit range
(`strconv.ParseFloat(_, 32)`), and the third parses as a base-10 unsigned integer
(`strconv.ParseUint(_, 10, 0)`); in particular every accepted line has exactly three fields. -/
theorem ValidatePacket_accepts_iff (buf : Bytes) :
    (ValidatePacket buf = none ↔
      ∃ f0 f1 f2, Fields buf = [f0, f1, f2] ∧
        InitialValidationB f0 (GetVersionB f0) = none ∧
        strconv.ParseFloat f1 32 = none ∧
        ∃ n, strconv.ParseUint f2 10 0 = .ok n) ∧
    (ValidatePacket buf = none → (Fields buf).length = 3) := by
  by_cases hl : (Fields buf).length = 3
  · obtain ⟨f0, f1, f2, hf⟩ := List.length_eq_three.mp hl
    refine ⟨?_, fun _ => hl⟩
    rw [ValidatePacket_of_fields buf f0 f1 f2 hf]
    constructor
    · intro h
      refine ⟨f0, f1, f2, hf, ?_⟩
      cases h0 : InitialValidationB f0 (GetVersionB f0) with
      | some e => simp [h0] at h
      | none =>
        cases h1 : strconv.ParseFloat f1 32 with
        | some e => simp [h0, h1] at h
        | none =>
          cases h2 : strconv.ParseUint f2 10 0 with
          | error e => simp [h0, h1, h2] at h
          | ok n => exact ⟨rfl, rfl, n, rfl⟩
    · rintro ⟨g0, g1, g2, hg, h0, h1, n, h2⟩
      rw [hf] at hg
      injection hg with e0 hg
      injection hg with e1 hg
      injection hg with e2 _
      subst e0 e1 e2
      simp [h0, h1, h2]
  · have h := ValidatePacket_of_length_ne buf hl
    refine ⟨⟨fun hn => ?_, ?_⟩, fun hn => ?_⟩
    · rw [h] at hn; cases hn
    · rintro ⟨g0, g1, g2, hg, _⟩
      exact absurd (by rw [hg]; rfl) hl
    · rw [h] at hn; cases hn

/-- C1, on the line of scenario S1. -/
theorem ValidatePacket_accepts_iff_witness :
    ValidatePacket (str "foo.unit=B.target_type=count.host=a 42 1700000000") = none ∧
    (Fields (str "foo.unit=B.target_type=count.host=a 42 1700000000")).length = 3 :=
  ⟨by decide, (ValidatePacket_accepts_iff _).2 (by decide)⟩

/-- C2: `GetVersion` classifies every metric id into exactly one schema: `M20` exactly when the
id contains `=`, `M20NoEquals` exactly when it contains `_is_` and no `=`, `Legacy` exactly when
it contains neither. -/
theorem GetVersion_classifies (id : Bytes) :
    (GetVersion id = M20 ↔ str "=" <:+: id) ∧
    (GetVersion id = M20NoEquals ↔ str "_is_" <:+: id ∧ ¬ str "=" <:+: id) ∧
    (GetVersion id = Legacy ↔ ¬ str "=" <:+: id ∧ ¬ str "_is_" <:+: id) := by
  simp only [← Contains_iff, GetVersion]
  split_ifs with h1 h2 <;> simp [*]

/-- C3: `InitialValidation id M20` returns no error exactly when the id does not contain
`_is_`, starts with `unit=` or contains `.unit=`, starts with `target_type=` or contains
`.target_type=`, and contains at least two `.` bytes; and `InitialValidation id M20NoEquals`
returns no error exactly when the id does not contain `=`, starts with `unit_is_` or contains
`.unit_is_`, starts with `target_type_is_` or contains `.target_type_is_`, and contains at least
two `.` bytes. -/
theorem InitialValidation_tagged_iff (id : Bytes) :
    (InitialValidation id M20 = none ↔
      ¬ str "_is_" <:+: id ∧
      (str "unit=" <+: id ∨ str ".unit=" <:+: id) ∧
      (str "target_type=" <+: id ∨ str ".target_type=" <:+: id) ∧
      2 ≤ id.count 0x2E) ∧
    (InitialValidation id M20NoEquals = none ↔
      ¬ str "=" <:+: id ∧
      (str "unit_is_" <+: id ∨ str ".unit_is_" <:+: id) ∧
      (str "target_type_is_" <+: id ∨ str ".target_type_is_" <:+: id) ∧
      2 ≤ id.count 0x2E) := by
  simp only [← Contains_iff, ← HasPrefix_iff, InitialValidation, Count_dot]
  simp only [reduceCtorEq, if_false, if_true]
  constructor
  · cases Contains id (str "_is_") <;> cases HasPrefix id (str "unit=") <;>
      cases Contains id (str ".unit=") <;> cases HasPrefix id (str "target_type=") <;>
      cases Contains id (str ".target_type=") <;> simp
  · cases Contains id (str "=") <;> cases HasPrefix id (str "unit_is_") <;>
      cases Contains id (str ".unit_is_") <;> cases HasPrefix id (str "target_type_is_") <;>
      cases Contains id (str ".target_type_is_") <;> simp

/-- C4: `InitialValidation id Legacy` returns no error exactly when the id contains no `..`
and every character (rune) of the id is in `[A-Za-z0-9_.-]`, which is to say every byte of the
id is one of these ASCII characters; and whenever the id contains `..` the error is the
empty-node one, whether or not a character is illegal as well. -/
theorem InitialValidation_Legacy_iff (id : Bytes) :
    (InitialValidation id Legacy = none ↔
      ¬ str ".." <:+: id ∧ ∀ ch ∈ utf8.runes id, sensible ch) ∧
    (InitialValidation id Legacy = none ↔
      ¬ str ".." <:+: id ∧ ∀ b ∈ id, sensible b.toNat) ∧
    (str ".." <:+: id → (∃ ch ∈ utf8.runes id, ¬ sensible ch) →
      InitialValidation id Legacy = some (.emptyNode id)) := by
  simp only [← Contains_iff, InitialValidation, if_true, ← illegal_eq_false_iff]
  refine ⟨?_, ?_, ?_⟩
  · split_ifs with h
    · simp [h]
    · simp [h, ValidateSensibleChars, utf8.runes, sensibleCharsLoop_iff_runes]
  · split_ifs with h
    · simp [h]
    · simp [h, ValidateSensibleChars, sensibleCharsLoop_iff_bytes]
  · intro h _
    simp [h]

/-- C4, on the id `a..b!`, which has an empty node and an illegal character. -/
theorem InitialValidation_Legacy_iff_witness :
    InitialValidation (str "a..b!") Legacy = some (.emptyNode (str "a..b!")) :=
  (InitialValidation_Legacy_iff (str "a..b!")).2.2 (by decide) ⟨0x21, by decide, by decide⟩

end metrics20

namespace metrics20

open strings metricVersion

/-- An id with both `=` and `_is_` fails `InitialValidationB` under its own version. -/
theorem InitialValidationB_mixed (id : Bytes) (h1 : Contains id (str "=") = true)
    (h2 : Contains id (str "_is_") = true) :
    InitialValidationB id (GetVersionB id) = some (.bothEqualsAndIs id) := by
  simp [InitialValidationB, GetVersionB, byteEquals, m20Is, h1, h2]

/-- An id accepted under `M20` or `M20NoEquals` has at least two `.` separators. -/
theorem InitialValidation_count (id : Bytes) (v : metricVersion) (hv : v ≠ Legacy)
    (h : InitialValidation id v = none) : 2 ≤ Count id (str ".") := by
  simp only [InitialValidation, hv, if_false] at h
  split at h
  · cases h
  · split_ifs at h with h2
    omega

/-- C5: `ValidatePacket` reports the first offending rule in the order field count, metric-id
schema rules, value, timestamp. A line that does not split into exactly three fields gets
`packet must consist of 3 fields`; otherwise, if the id fails its schema rules, the error is
that rule's, whatever the value and timestamp fields are; otherwise, if the value does not
parse, the error is `value field is not a float or int`, whatever the timestamp is; otherwise,
if the timestamp does not parse, `timestamp field is not a unix timestamp`. -/
theorem ValidatePacket_first_error (buf : Bytes) :
    ((Fields buf).length ≠ 3 → ValidatePacket buf = some .packetFields) ∧
    (∀ f0 f1 f2, Fields buf = [f0, f1, f2] →
      (∀ err, InitialValidationB f0 (GetVersionB f0) = some err →
        ValidatePacket buf = some err) ∧
      (InitialValidationB f0 (GetVersionB f0) = none →
        (strconv.ParseFloat f1 32 ≠ none → ValidatePacket buf = some .valueNotFloat) ∧
        (strconv.ParseFloat f1 32 = none → (∃ e, strconv.ParseUint f2 10 0 = .error e) →
          ValidatePacket buf = some .timestampNotUnix))) := by
  refine ⟨ValidatePacket_of_length_ne buf, fun f0 f1 f2 hf => ?_⟩
  rw [ValidatePacket_of_fields buf f0 f1 f2 hf]
  refine ⟨fun err h0 => by simp [h0], fun h0 => ⟨fun h1 => ?_, fun h1 h2 => ?_⟩⟩
  · cases h1' : strconv.ParseFloat f1 32 with
    | none => exact absurd h1' h1
    | some e => simp [h0]
  · obtain ⟨e, h2⟩ := h2
    simp [h0, h1, h2]

/-- C5, on one line per rule: two fields; a tagless `=` id with unparsable value and timestamp;
a good id with unparsable value and timestamp; a good id and value with a signed timestamp. -/
theorem ValidatePacket_first_error_witness :
    ValidatePacket (str "foo.bar 42") = some .packetFields ∧
    ValidatePacket (str "foo=bar x y") = some (.noUnitTag (str "foo=bar")) ∧
    ValidatePacket (str "foo.bar x y") = some .valueNotFloat ∧
    ValidatePacket (str "foo.bar 42 -1") = some .timestampNotUnix :=
  ⟨(ValidatePacket_first_error (str "foo.bar 42")).1 (by decide),
   ((ValidatePacket_first_error (str "foo=bar x y")).2 (str "foo=bar") (str "x") (str "y")
      (by decide)).1 _ (by decide),
   (((ValidatePacket_first_error (str "foo.bar x y")).2 (str "foo.bar") (str "x") (str "y")
      (by decide)).2 (by decide)).1 (by decide),
   (((ValidatePacket_first_error (str "foo.bar 42 -1")).2 (str "foo.bar") (str "42") (str "-1")
      (by decide)).2 (by decide)).2 (by decide) ⟨.ErrSyntax, by decide⟩⟩

/-- C7, refuted as stated: the id `foo.unit=B.target_type=count` is an `M20` id accepted by
`InitialValidation`, and of its nodes `foo`, `unit=B`, `target_type=count` only the unit and
target_type tags contain the tag delimiter `=`. -/
theorem InitialValidation_accepts_bare_node :
    GetVersion (str "foo.unit=B.target_type=count") = M20 ∧
    InitialValidation (str "foo.unit=B.target_type=count") M20 = none ∧
    Split (str "foo.unit=B.target_type=count") (str ".")
      = [str "foo", str "unit=B", str "target_type=count"] ∧
    ∀ node ∈ Split (str "foo.unit=B.target_type=count") (str "."),
      Contains node (str "=") = true → node = str "unit=B" ∨ node = str "target_type=count" := by
  decide

/-- C7, amended: every id accepted by `InitialValidation` under `M20` or `M20NoEquals` contains
at least two `.` bytes, so it splits into at least three nodes. -/
theorem InitialValidation_three_nodes (id : Bytes) (v : metricVersion)
    (hv : v = M20 ∨ v = M20NoEquals) (h : InitialValidation id v = none) :
    2 ≤ id.count 0x2E ∧ 3 ≤ (Split id (str ".")).length := by
  have hv' : v ≠ Legacy := by rcases hv with rfl | rfl <;> simp
  have hc := InitialValidation_count id v hv' h
  rw [Split_length id (str ".") (by decide)]
  rw [Count_dot] at hc ⊢
  omega

/-- C7 amended, on the id `foo.unit=B.target_type=count`. -/
theorem InitialValidation_three_nodes_witness :
    2 ≤ (str "foo.unit=B.target_type=count").count 0x2E ∧
    3 ≤ (Split (str "foo.unit=B.target_type=count") (str ".")).length :=
  InitialValidation_three_nodes (str "foo.unit=B.target_type=count") M20 (Or.inl rfl)
    (by decide)

/-- C8: a metric id that contains both `=` and `_is_` fails `InitialValidation` under the
version `GetVersion` gives it, with the error `has both = and _is_`; hence `ValidatePacket`
rejects every line whose first field is such an id (with that error when the line has three
fields). -/
theorem mixed_syntax_rejected (id : Bytes) (h1 : str "=" <:+: id) (h2 : str "_is_" <:+: id) :
    InitialValidation id (GetVersion id) = some (.bothEqualsAndIs id) ∧
    ∀ buf, (Fields buf).head? = some id →
      ValidatePacket buf ≠ none ∧
      ((Fields buf).length = 3 → ValidatePacket buf = some (.bothEqualsAndIs id)) := by
  rw [← Contains_iff] at h1 h2
  refine ⟨by simp [InitialValidation, GetVersion, h1, h2], fun buf hb => ?_⟩
  by_cases hl : (Fields buf).length = 3
  · obtain ⟨f0, f1, f2, hf⟩ := List.length_eq_three.mp hl
    rw [hf] at hb
    simp only [List.head?_cons, Option.some.injEq] at hb
    subst hb
    have := ValidatePacket_of_fields buf f0 f1 f2 hf
    rw [InitialValidationB_mixed f0 h1 h2] at this
    simp [this]
  · simp [ValidatePacket_of_length_ne buf hl, hl]

/-- C8, on the id `a=b_is_c` and the line `a=b_is_c 42 1700000000`. -/
theorem mixed_syntax_rejected_witness :
    InitialValidation (str "a=b_is_c") (GetVersion (str "a=b_is_c"))
      = some (.bothEqualsAndIs (str "a=b_is_c")) ∧
    ValidatePacket (str "a=b_is_c 42 1700000000") = some (.bothEqualsAndIs (str "a=b_is_c")) :=
  ⟨(mixed_syntax_rejected (str "a=b_is_c") (by decide) (by decide)).1,
   ((mixed_syntax_rejected (str "a=b_is_c") (by decide) (by decide)).2
      (str "a=b_is_c 42 1700000000") (by decide)).2 (by decide)⟩

end metrics20

namespace metrics20

open strings metricVersion

/-- An id with `=`, without `_is_` and without a unit tag fails `InitialValidationB` under its
own version with the missing-unit error. -/
theorem InitialValidationB_no_unit (id : Bytes) (h1 : Contains id (str "=") = true)
    (h2 : Contains id (str "_is_") = false) (h3 : HasPrefix id (str "unit=") = false)
    (h4 : Contains id (str ".unit=") = false) :
    InitialValidationB id (GetVersionB id) = some (.noUnitTag id) := by
  simp [InitialValidationB, GetVersionB, byteEquals, m20Is, m20UnitPre, m20UnitMid, h1, h2,
    h3, h4]

end metrics20

namespace relay

open strings metrics20

theorem Accounted_init (validate : Bytes → Result) : Accounted validate State.init := by
  simp [Accounted, State.init]

theorem Accounted_step (validate : Bytes → Result) (s : State) (r : ReadResult)
    (h : Accounted validate s) : Accounted validate (step validate s r) := by
  obtain ⟨h1, h2, h3⟩ := h
  by_cases hc : s.closed = true
  · simpa [step, hc] using ⟨h1, h2, h3⟩
  by_cases hp : r.isPrefix = true
  · simpa [step, hc, hp] using ⟨h1, h2, h3⟩
  cases he : r.err with
  | some e => simpa [step, hc, hp, he] using ⟨h1, h2, h3⟩
  | none =>
    cases hv : validate (s.acc ++ r.part) with
    | some e =>
      simp only [step, hc, hp, he, hv, Accounted, Bool.false_eq_true, if_false]
      refine ⟨h1, ?_, ?_⟩
      · omega
      · rw [List.length_append, List.length_singleton]; omega
    | none =>
      simp only [step, hc, hp, he, hv, Accounted, Bool.false_eq_true, if_false]
      refine ⟨?_, ?_, h3⟩
      · intro b hb
        simp only [List.mem_append, List.mem_singleton] at hb
        rcases hb with hb | hb
        · exact h1 b hb
        · rw [hb]; exact hv
      · rw [List.length_append, List.length_singleton]; omega

theorem Accounted_handleFrom (validate : Bytes → Result) (reads : List ReadResult) (s : State)
    (h : Accounted validate s) : Accounted validate (handleFrom validate s reads) := by
  induction reads generalizing s with
  | nil => exact h
  | cons r reads ih => exact ih _ (Accounted_step validate s r h)

theorem Accounted_handle (validate : Bytes → Result) (reads : List ReadResult) :
    Accounted validate (handle validate reads) :=
  Accounted_handleFrom validate reads _ (Accounted_init validate)

/-- C6, refuted as stated: the line `foo.bar 42 1700000000` of scenario S2 is accepted by
`ValidatePacket` (`foo.bar` is a `Legacy` id, and no rule asks a `Legacy` id for a unit tag), and
`handle` counts it in `numIn`, leaves `numInvalid` and the bad-metric sink alone, and dispatches
it. -/
theorem S2_line_is_dispatched :
    GetVersionB (str "foo.bar") = .Legacy ∧
    ValidatePacket (str "foo.bar 42 1700000000") = none ∧
    handle ValidatePacket [⟨str "foo.bar 42 1700000000", false, none⟩]
      = ⟨[], 1, 0, [], [str "foo.bar 42 1700000000"], false⟩ := by
  decide

/-- C6, amended: the line `foo.bar 42 1700000000` is accepted and dispatched, `numInvalid`
staying at 0; the missing-unit rejection is for ids that contain `=`: a three-field line whose
id contains `=`, no `_is_`, and neither starts with `unit=` nor contains `.unit=` is rejected
with `has no unit tag`, and `handle` counts it in `numIn` and `numInvalid` and records
`(id, line, reason)` in the bad-metric sink instead of dispatching it. -/
theorem missing_unit_tag_is_for_tagged_ids :
    (ValidatePacket (str "foo.bar 42 1700000000") = none ∧
      (handle ValidatePacket [⟨str "foo.bar 42 1700000000", false, none⟩]).numInvalid = 0 ∧
      (handle ValidatePacket [⟨str "foo.bar 42 1700000000", false, none⟩]).dispatched
        = [str "foo.bar 42 1700000000"]) ∧
    (∀ buf id f1 f2 : Bytes, Fields buf = [id, f1, f2] →
      str "=" <:+: id → ¬ str "_is_" <:+: id → ¬ str "unit=" <+: id → ¬ str ".unit=" <:+: id →
      ValidatePacket buf = some (.noUnitTag id) ∧
      handle ValidatePacket [⟨buf, false, none⟩]
        = ⟨[], 1, 1, [⟨id, buf, .noUnitTag id⟩], [], false⟩) := by
  refine ⟨by decide, fun buf id f1 f2 hf h1 h2 h3 h4 => ?_⟩
  rw [← Contains_iff] at h1 h2 h4
  rw [← HasPrefix_iff] at h3
  simp only [Bool.not_eq_true] at h2 h3 h4
  have hv : ValidatePacket buf = some (.noUnitTag id) := by
    rw [ValidatePacket_of_fields buf id f1 f2 hf, InitialValidationB_no_unit id h1 h2 h3 h4]
  refine ⟨hv, ?_⟩
  simp [handle, handleFrom, step, State.init, hv, hf]

/-- C6 amended, on the line `foo=bar 42 1700000000`. -/
theorem missing_unit_tag_is_for_tagged_ids_witness :
    ValidatePacket (str "foo=bar 42 1700000000") = some (.noUnitTag (str "foo=bar")) ∧
    handle ValidatePacket [⟨str "foo=bar 42 1700000000", false, none⟩]
      = ⟨[], 1, 1,
          [⟨str "foo=bar", str "foo=bar 42 1700000000", .noUnitTag (str "foo=bar")⟩], [],
          false⟩ :=
  missing_unit_tag_is_for_tagged_ids.2 (str "foo=bar 42 1700000000") (str "foo=bar") (str "42")
    (str "1700000000") (by decide) (by decide) (by decide) (by decide) (by decide)

/-- C9: `table.Dispatch` never sees an unvalidated line. Whatever the validator and the
sequence of `ReadLine` results, every line `handle` dispatches is one the validator returned no
error for, and a line the validator returns an error for is never dispatched; with
`ValidatePacket` as the validator every dispatched line has exactly three white-space separated
fields. -/
theorem dispatch_only_validated (validate : Bytes → Result) (reads : List ReadResult)
    (b : Bytes) :
    (b ∈ (handle validate reads).dispatched → validate b = none) ∧
    (validate b ≠ none → b ∉ (handle validate reads).dispatched) ∧
    (b ∈ (handle ValidatePacket reads).dispatched →
      ValidatePacket b = none ∧ (Fields b).length = 3) := by
  have key : ∀ v : Bytes → Result, b ∈ (handle v reads).dispatched → v b = none :=
    fun v hb => (Accounted_handle v reads).1 b hb
  refine ⟨key validate, fun hne hb => hne (key validate hb), fun hb => ?_⟩
  have hv := key ValidatePacket hb
  refine ⟨hv, ?_⟩
  by_contra hl
  rw [ValidatePacket_of_length_ne b hl] at hv
  cases hv

/-- C9, on a connection that sends a good line, a line with a bad id and then closes. -/
theorem dispatch_only_validated_witness :
    (ValidatePacket (str "foo.bar 42 1700000000") = none ∧
      (Fields (str "foo.bar 42 1700000000")).length = 3) ∧
    str "foo=bar 42 1700000000" ∉
      (handle ValidatePacket
        [⟨str "foo.bar 42 1700000000", false, none⟩, ⟨str "foo=bar 42 1700000000", false, none⟩,
         ⟨[], false, some .EOF⟩]).dispatched :=
  ⟨(dispatch_only_validated ValidatePacket
      [⟨str "foo.bar 42 1700000000", false, none⟩, ⟨str "foo=bar 42 1700000000", false, none⟩,
       ⟨[], false, some .EOF⟩] (str "foo.bar 42 1700000000")).2.2 (by decide),
   (dispatch_only_validated ValidatePacket
      [⟨str "foo.bar 42 1700000000", false, none⟩, ⟨str "foo=bar 42 1700000000", false, none⟩,
       ⟨[], false, some .EOF⟩] (str "foo=bar 42 1700000000")).2.1 (by decide)⟩

/-- C10: per-line accounting in `handle`. After any sequence of `ReadLine` results,
`numIn = numInvalid + (number of Dispatch calls)` and the number of bad-metric records equals
`numInvalid`. A complete line read without error (in a loop that has not been left) increments
`numIn` by exactly 1 and then does exactly one of: increment `numInvalid` by 1 and add one
record for that line to the bad-metric sink, when validation fails; call `table.Dispatch` once
with that line, when validation succeeds. A partial read, or a read that returns an error,
counts nothing. -/
theorem handle_accounting (validate : Bytes → Result) :
    (∀ reads : List ReadResult,
      (handle validate reads).numIn
        = (handle validate reads).numInvalid + (handle validate reads).dispatched.length ∧
      (handle validate reads).badMetrics.length = (handle validate reads).numInvalid) ∧
    (∀ (s : State) (part : Bytes), s.closed = false →
      (step validate s ⟨part, false, none⟩).numIn = s.numIn + 1 ∧
      ((validate (s.acc ++ part) ≠ none ∧
          (step validate s ⟨part, false, none⟩).numInvalid = s.numInvalid + 1 ∧
          (∃ metric err, (step validate s ⟨part, false, none⟩).badMetrics
            = s.badMetrics ++ [⟨metric, s.acc ++ part, err⟩]) ∧
          (step validate s ⟨part, false, none⟩).dispatched = s.dispatched) ∨
        (validate (s.acc ++ part) = none ∧
          (step validate s ⟨part, false, none⟩).numInvalid = s.numInvalid ∧
          (step validate s ⟨part, false, none⟩).badMetrics = s.badMetrics ∧
          (step validate s ⟨part, false, none⟩).dispatched
            = s.dispatched ++ [s.acc ++ part]))) ∧
    (∀ (s : State) (r : ReadResult), r.isPrefix = true ∨ r.err ≠ none →
      (step validate s r).numIn = s.numIn ∧
      (step validate s r).numInvalid = s.numInvalid ∧
      (step validate s r).badMetrics = s.badMetrics ∧
      (step validate s r).dispatched = s.dispatched) := by
  refine ⟨fun reads => (Accounted_handle validate reads).2, fun s part hc => ?_, fun s r hr => ?_⟩
  · cases hv : validate (s.acc ++ part) with
    | none => simp [step, hc, hv]
    | some e => simp [step, hc, hv]
  · unfold step
    split_ifs with hc hp
    · simp
    · simp
    · rcases hr with hr | hr
      · exact absurd hr hp
      · cases he : r.err with
        | none => exact absurd he hr
        | some e => simp

/-- C10, on a connection that sends a good line and then a line with a bad id. -/
theorem handle_accounting_witness :
    ((step ValidatePacket State.init ⟨str "foo.bar 42 1700000000", false, none⟩).numIn = 1 ∧
      (step ValidatePacket State.init ⟨str "foo.bar 42 1700000000", false, none⟩).dispatched
        = [str "foo.bar 42 1700000000"]) ∧
    (step ValidatePacket State.init ⟨str "foo.bar 42 ", true, none⟩).numIn = 0 :=
  ⟨by
    have h := (handle_accounting ValidatePacket).2.1 State.init (str "foo.bar 42 1700000000") rfl
    rcases h with ⟨h1, h2 | h2⟩
    · exact absurd (by decide) h2.1
    · exact ⟨h1, h2.2.2.2⟩,
   ((handle_accounting ValidatePacket).2.2 State.init ⟨str "foo.bar 42 ", true, none⟩
      (Or.inl rfl)).1⟩

end relay

/-! ## Over-long lines, validation levels, byte and string variants, configuration -/

namespace relay

open strings metrics20

/-- A run of reads that all have `isPrefix` set only grows the buffer. -/
theorem handleFrom_chunks (validate : Bytes → Result) (chunks : List ReadResult) (s : State)
    (hc : s.closed = false) (hp : ∀ r ∈ chunks, r.isPrefix = true) :
    handleFrom validate s chunks
      = { s with acc := s.acc ++ (chunks.map ReadResult.part).flatten } := by
  induction chunks generalizing s with
  | nil => simp [handleFrom]
  | cons r chunks ih =>
    have hr : r.isPrefix = true := hp r (List.mem_cons_self _ _)
    have hs : step validate s r = { s with acc := s.acc ++ r.part } := by
      simp [step, hc, hr]
    have := ih { s with acc := s.acc ++ r.part } hc
      (fun r' h' => hp r' (List.mem_cons_of_mem _ h'))
    simp only [handleFrom, List.foldl_cons, hs] at this ⊢
    rw [this]
    simp [List.append_assoc]

theorem handleFrom_append (validate : Bytes → Result) (s : State) (xs ys : List ReadResult) :
    handleFrom validate s (xs ++ ys) = handleFrom validate (handleFrom validate s xs) ys := by
  simp [handleFrom, List.foldl_append]

/-- Once the loop has been left nothing is processed any more. -/
theorem handleFrom_closed (validate : Bytes → Result) (reads : List ReadResult) (s : State)
    (hc : s.closed = true) : handleFrom validate s reads = s := by
  induction reads with
  | nil => rfl
  | cons r reads ih =>
    have : step validate s r = s := by simp [step, hc]
    simpa [handleFrom, this] using ih

/-- C11, refuted as stated: a line that arrives as the chunk `foo.bar 42 17` with `isPrefix`
set, followed by the final chunk `00000000`, is validated and dispatched as
`foo.bar 42 1700000000`, bytes of the second chunk included (the first chunk alone would be a
valid line too, and is not what is dispatched). -/
theorem continuation_is_kept :
    ValidatePacket (str "foo.bar 42 17") = none ∧
    (handle ValidatePacket
      [⟨str "foo.bar 42 17", true, none⟩, ⟨str "00000000", false, none⟩]).dispatched
      = [str "foo.bar 42 1700000000"] ∧
    (handle ValidatePacket
      [⟨str "foo.bar 42 17", true, none⟩, ⟨str "00000000", false, none⟩]).numIn = 1 := by
  decide

/-- C11, amended: when `ReadLine` returns chunks with `isPrefix` set before the final chunk, the
chunks are accumulated and the line handed to validation and dispatch is the concatenation of
all of them, in order, with the final chunk. A read with `isPrefix` set is never itself
processed as a line: it counts nothing, records nothing and dispatches nothing. The bytes
accumulated from such reads are discarded when EOF or a read error arrives before the line
completes: nothing is counted, recorded or dispatched, then or afterwards. -/
theorem long_lines_are_joined (validate : Bytes → Result) (s : State) (chunks : List ReadResult)
    (hc : s.closed = false) (hp : ∀ r ∈ chunks, r.isPrefix = true) :
    (∀ last : Bytes,
      handleFrom validate s (chunks ++ [⟨last, false, none⟩])
        = step validate { s with acc := [] }
            ⟨s.acc ++ (chunks.map ReadResult.part).flatten ++ last, false, none⟩) ∧
    (∀ last : Bytes,
      validate (s.acc ++ (chunks.map ReadResult.part).flatten ++ last) = none →
      (handleFrom validate s (chunks ++ [⟨last, false, none⟩])).dispatched
        = s.dispatched ++ [s.acc ++ (chunks.map ReadResult.part).flatten ++ last]) ∧
    ((handleFrom validate s chunks).numIn = s.numIn ∧
      (handleFrom validate s chunks).numInvalid = s.numInvalid ∧
      (handleFrom validate s chunks).badMetrics = s.badMetrics ∧
      (handleFrom validate s chunks).dispatched = s.dispatched) ∧
    (∀ (part : Bytes) (e : ReadError) (more : List ReadResult),
      handleFrom validate s (chunks ++ [⟨part, false, some e⟩] ++ more)
        = { s with acc := [], closed := true }) := by
  have h := handleFrom_chunks validate chunks s hc hp
  have hstep : ∀ last : Bytes,
      handleFrom validate s (chunks ++ [⟨last, false, none⟩])
        = step validate { s with acc := [] }
            ⟨s.acc ++ (chunks.map ReadResult.part).flatten ++ last, false, none⟩ := by
    intro last
    rw [handleFrom_append, h]
    simp [handleFrom, step, hc]
  refine ⟨hstep, fun last hv => ?_, by simp [h], fun part e more => ?_⟩
  · rw [hstep]
    simp only [List.append_assoc] at hv
    simp [step, hc, hv]
  · rw [handleFrom_append, handleFrom_append, h]
    have : handleFrom validate { s with acc := s.acc ++ (chunks.map ReadResult.part).flatten }
        [⟨part, false, some e⟩] = { s with acc := [], closed := true } := by
      simp [handleFrom, step, hc]
    rw [this]
    exact handleFrom_closed validate more _ rfl

/-- C11 amended, on a line in two chunks and on a connection closed in the middle of a
line. -/
theorem long_lines_are_joined_witness :
    (handleFrom ValidatePacket State.init
      ([⟨str "foo.bar 42 17", true, none⟩] ++ [⟨str "00000000", false, none⟩])).dispatched
      = State.init.dispatched
        ++ [State.init.acc
          ++ ([(⟨str "foo.bar 42 17", true, none⟩ : ReadResult)].map ReadResult.part).flatten
          ++ str "00000000"] ∧
    handleFrom ValidatePacket State.init
      ([⟨str "foo.bar 42 17", true, none⟩] ++ [⟨[], false, some .EOF⟩] ++ [])
      = { State.init with acc := [], closed := true } :=
  ⟨(long_lines_are_joined ValidatePacket State.init [⟨str "foo.bar 42 17", true, none⟩]
      rfl (by decide)).2.1 (str "00000000") (by decide),
   (long_lines_are_joined ValidatePacket State.init [⟨str "foo.bar 42 17", true, none⟩]
      rfl (by decide)).2.2.2 [] .EOF []⟩

/-- C14: `UnmarshalText` returns no error exactly when the text is one of `strict`, `medium`,
`none`, byte for byte; `Level` is then `Strict`, `Medium`, `None` respectively; for every other
text it returns the error that names the text. -/
theorem UnmarshalText_iff (zero : LegacyMetricValidation) (l : MetricValidationLevel)
    (text : Bytes) :
    ((UnmarshalText zero l text).2 = none ↔
      text = str "strict" ∨ text = str "medium" ∨ text = str "none") ∧
    (text = str "strict" → (UnmarshalText zero l text).1.Level = .Strict) ∧
    (text = str "medium" → (UnmarshalText zero l text).1.Level = .Medium) ∧
    (text = str "none" → (UnmarshalText zero l text).1.Level = .None) ∧
    (¬ (text = str "strict" ∨ text = str "medium" ∨ text = str "none") →
      (UnmarshalText zero l text).2 = some (.invalidLevel text)) := by
  have d12 : str "strict" ≠ str "medium" := by decide
  have d13 : str "strict" ≠ str "none" := by decide
  have d23 : str "medium" ≠ str "none" := by decide
  have l1 : validationLevels.lookup (str "strict") = some .Strict := by decide
  have l2 : validationLevels.lookup (str "medium") = some .Medium := by decide
  have l3 : validationLevels.lookup (str "none") = some .None := by decide
  by_cases h1 : text = str "strict"
  · subst h1; simp [UnmarshalText, l1, d12, d13]
  by_cases h2 : text = str "medium"
  · subst h2; simp [UnmarshalText, l2, d12.symm, d23]
  by_cases h3 : text = str "none"
  · subst h3; simp [UnmarshalText, l3, d13.symm, d23.symm]
  have l4 : validationLevels.lookup text = none := by
    have e1 : (text == str "strict") = false := by simpa using h1
    have e2 : (text == str "medium") = false := by simpa using h2
    have e3 : (text == str "none") = false := by simpa using h3
    simp [validationLevels, List.lookup, e1, e2, e3]
  simp [UnmarshalText, l4, h1, h2, h3]

/-- C14, on the texts `medium`, `Strict` (wrong case) and ` none` (leading blank). -/
theorem UnmarshalText_iff_witness :
    (UnmarshalText .Strict ⟨.Strict⟩ (str "medium")).1.Level = .Medium ∧
    (UnmarshalText .Strict ⟨.Strict⟩ (str "Strict")).2 = some (.invalidLevel (str "Strict")) ∧
    (UnmarshalText .Strict ⟨.Strict⟩ (str " none")).2 = some (.invalidLevel (str " none")) :=
  ⟨(UnmarshalText_iff .Strict ⟨.Strict⟩ (str "medium")).2.2.1 rfl,
   (UnmarshalText_iff .Strict ⟨.Strict⟩ (str "Strict")).2.2.2.2 (by decide),
   (UnmarshalText_iff .Strict ⟨.Strict⟩ (str " none")).2.2.2.2 (by decide)⟩

end relay

namespace metrics20

open strings metricVersion

theorem ValidatePacketLevel_of_length_ne (buf : Bytes) (level : LegacyMetricValidation)
    (h : (Fields buf).length ≠ 3) : ValidatePacketLevel buf level = some .packetFields := by
  unfold ValidatePacketLevel
  split
  · next f0 f1 f2 hf => simp [hf] at h
  · rfl

/-- At level `Strict` the modelled validator is the `ValidatePacket` of `version.go`. -/
theorem ValidatePacketLevel_Strict (buf : Bytes) :
    ValidatePacketLevel buf .Strict = ValidatePacket buf := by
  simp only [ValidatePacketLevel, ValidatePacket, schemaRules]

/-- C12: at level `none` the validator accepts exactly the lines that have exactly three fields
whose value and timestamp parse, whatever the metric id; it rejects every line that does not
have exactly three fields, with the field-count error. -/
theorem ValidatePacketLevel_None (buf : Bytes) :
    (ValidatePacketLevel buf .None = none ↔
      ∃ f0 f1 f2, Fields buf = [f0, f1, f2] ∧
        strconv.ParseFloat f1 32 = none ∧ ∃ n, strconv.ParseUint f2 10 0 = .ok n) ∧
    ((Fields buf).length ≠ 3 → ValidatePacketLevel buf .None = some .packetFields) := by
  refine ⟨?_, ValidatePacketLevel_of_length_ne buf .None⟩
  by_cases hl : (Fields buf).length = 3
  · obtain ⟨f0, f1, f2, hf⟩ := List.length_eq_three.mp hl
    simp only [ValidatePacketLevel, hf, schemaRules]
    constructor
    · intro h
      refine ⟨f0, f1, f2, rfl, ?_⟩
      cases h1 : strconv.ParseFloat f1 32 with
      | some e => simp [h1] at h
      | none =>
        cases h2 : strconv.ParseUint f2 10 0 with
        | error e => simp [h1, h2] at h
        | ok n => exact ⟨rfl, n, rfl⟩
    · rintro ⟨g0, g1, g2, hg, h1, n, h2⟩
      injection hg with e0 hg
      injection hg with e1 hg
      injection hg with e2 _
      subst e0 e1 e2
      simp [h1, h2]
  · rw [ValidatePacketLevel_of_length_ne buf .None hl]
    constructor
    · intro h; cases h
    · rintro ⟨g0, g1, g2, hg, _⟩
      exact absurd (by rw [hg]; rfl) hl

/-- C12, on a line whose id has an empty node and characters outside `[A-Za-z0-9_.-]` (accepted
at level `none`, rejected by the rules of `version.go`), and on a line of two fields. -/
theorem ValidatePacketLevel_None_witness :
    ValidatePacketLevel (str "a..b!? 42 1700000000") .None = none ∧
    ValidatePacket (str "a..b!? 42 1700000000") = some (.emptyNode (str "a..b!?")) ∧
    ValidatePacketLevel (str "foo.bar 42") .None = some .packetFields :=
  ⟨by decide, by decide, (ValidatePacketLevel_None (str "foo.bar 42")).2 (by decide)⟩

/-- C13: the byte-array variants agree with the string variants on every byte sequence, valid
UTF-8 or not: `GetVersionB` and `GetVersion` return the same version, `InitialValidationB`
returns an error exactly when `InitialValidation` does (the very same error under `M20` and
`M20NoEquals`), and `ValidateSensibleCharsB`, which inspects bytes, accepts exactly what
`ValidateSensibleChars`, which inspects runes, accepts. -/
theorem byte_variants_agree (b : Bytes) (v : metricVersion) :
    GetVersionB b = GetVersion b ∧
    (InitialValidationB b v = none ↔ InitialValidation b v = none) ∧
    (v ≠ Legacy → InitialValidationB b v = InitialValidation b v) ∧
    (ValidateSensibleCharsB b = none ↔ ValidateSensibleChars b = none) := by
  have hs : ValidateSensibleCharsB b = none ↔ ValidateSensibleChars b = none := by
    rw [ValidateSensibleCharsB, ValidateSensibleChars, sensibleCharsLoopB_iff,
      sensibleCharsLoop_iff_bytes]
  have hne : v ≠ Legacy → InitialValidationB b v = InitialValidation b v := by
    intro hv
    simp only [InitialValidationB, InitialValidation, hv, if_false, m20Is, m20UnitPre,
      m20UnitMid, m20TTPre, m20TTMid, m20NEIS, m20NEUnitPre, m20NEUnitMid, m20NETTPre,
      m20NETTMid, dot]
  refine ⟨by simp only [GetVersionB, GetVersion, byteEquals, byteIs], ?_, hne, hs⟩
  by_cases hv : v = Legacy
  · subst hv
    simp only [InitialValidationB, InitialValidation, if_true, doubleDot]
    split_ifs
    · simp
    · exact hs
  · rw [hne hv]

end metrics20

/-! ## The timestamp field -/

namespace strconv

theorem foldl_digits_ge (s : Bytes) (n : Nat) :
    n ≤ s.foldl (fun n b => n * 10 + (b.toNat - 0x30)) n := by
  induction s generalizing n with
  | nil => exact Nat.le_refl _
  | cons b s ih =>
    have := ih (n * 10 + (b.toNat - 0x30))
    simp only [List.foldl_cons]
    omega

theorem lower_digit (c : Nat) (h1 : 0x30 ≤ c) (h2 : c ≤ 0x39) : lower c < 0x61 := by
  have h : c ||| 0x20 < 2 ^ 6 := Nat.or_lt_two_pow (by omega) (by norm_num)
  simp only [lower]
  omega

/-- The digit loop of `ParseUint` in base 10 on 64 bits succeeds exactly on strings of decimal
digits whose value, continued from `n`, stays below `2^64`; it then returns that value. -/
theorem parseUintLoop_ten (s : Bytes) (n : Nat) (hn : n < 2 ^ 64) :
    (∀ m, parseUintLoop 10 1844674407370955162 18446744073709551615 s n = .ok m ↔
      (∀ b ∈ s, 0x30 ≤ b.toNat ∧ b.toNat ≤ 0x39) ∧
      s.foldl (fun n b => n * 10 + (b.toNat - 0x30)) n < 2 ^ 64 ∧
      m = s.foldl (fun n b => n * 10 + (b.toNat - 0x30)) n) := by
  induction s generalizing n with
  | nil =>
    intro m
    simp only [parseUintLoop, List.foldl_nil, List.not_mem_nil, false_implies, implies_true,
      true_and, Except.ok.injEq]
    constructor
    · intro h; exact ⟨hn, h.symm⟩
    · intro h; exact h.2.symm
  | cons b s ih =>
    intro m
    have hge := foldl_digits_ge s (n * 10 + (b.toNat - 0x30))
    simp only [parseUintLoop, List.foldl_cons, List.mem_cons, forall_eq_or_imp]
    by_cases hd : 0x30 ≤ b.toNat ∧ b.toNat ≤ 0x39
    · have hl := lower_digit b.toNat hd.1 hd.2
      have e1 : (decide (0x30 ≤ b.toNat) && decide (b.toNat ≤ 0x39)) = true := by
        simp [hd.1, hd.2]
      simp only [e1, Bool.true_or, Bool.not_true, Bool.false_eq_true, if_false, if_true]
      have e2 : ¬ (10 ≤ b.toNat - 0x30) := by omega
      simp only [e2, if_false]
      by_cases hc : 1844674407370955162 ≤ n
      · simp only [hc, if_true]
        constructor
        · intro h; cases h
        · rintro ⟨_, h, _⟩; omega
      · simp only [hc, if_false]
        by_cases ho : 2 ^ 64 ≤ n * 10 + (b.toNat - 0x30)
        · have e3 : (n * 10 + (b.toNat - 0x30)) % 2 ^ 64 < n * 10 := by omega
          simp only [e3, decide_True, Bool.true_or, if_true]
          constructor
          · intro h; cases h
          · rintro ⟨_, h, _⟩; omega
        · have e4 : (n * 10 + (b.toNat - 0x30)) % 2 ^ 64 = n * 10 + (b.toNat - 0x30) :=
            Nat.mod_eq_of_lt (by omega)
          have e5 : ¬ (n * 10 + (b.toNat - 0x30) < n * 10) := by omega
          have e6 : ¬ (18446744073709551615 < n * 10 + (b.toNat - 0x30)) := by omega
          simp only [e4, e5, e6, decide_False, Bool.or_self, Bool.false_eq_true, if_false]
          rw [ih _ (by omega) m]
          simp [hd.1, hd.2]
    · have hnot : ¬ ((0x30 ≤ b.toNat ∧ b.toNat ≤ 0x39) ∧ ∀ a ∈ s, 0x30 ≤ a.toNat ∧ a.toNat ≤ 0x39) :=
        fun h => hd h.1
      have e1 : (decide (0x30 ≤ b.toNat) && decide (b.toNat ≤ 0x39)) = false := by
        simpa using hd
      simp only [e1, Bool.false_or, Bool.false_eq_true, if_false]
      constructor
      · intro h
        exfalso
        split_ifs at h with h1 h2 h3 h4
        simp only [Bool.and_eq_true, decide_eq_true_eq, Bool.not_eq_true', Bool.not_eq_false']
          at h1
        omega
      · intro h; exact absurd ⟨h.1.1, h.1.2⟩ hnot

/-- `ParseUint(s, 10, 0)` succeeds exactly on the non-empty strings of ASCII decimal digits
whose value fits in `IntSize` bits. -/
theorem ParseUint_ten_iff (s : Bytes) :
    (∃ m, ParseUint s 10 0 = .ok m) ↔
      s ≠ [] ∧ (∀ b ∈ s, 0x30 ≤ b.toNat ∧ b.toNat ≤ 0x39) ∧ decimalValue s < 2 ^ IntSize := by
  cases s with
  | nil => simp [ParseUint]
  | cons b s =>
    have h := parseUintLoop_ten (b :: s) 0 (by norm_num)
    have e : ParseUint (b :: s) 10 0
        = parseUintLoop 10 1844674407370955162 18446744073709551615 (b :: s) 0 := by
      simp [ParseUint, IntSize]
    rw [e]
    simp only [h, decimalValue, IntSize]
    constructor
    · rintro ⟨m, h1, h2, _⟩; exact ⟨by simp, h1, h2⟩
    · rintro ⟨_, h1, h2⟩; exact ⟨_, h1, h2, rfl⟩

end strconv

namespace metrics20

open strings

/-- C18: on a line with three fields whose id and value are valid, `ValidatePacket` accepts
exactly when the third field is a non-empty string of ASCII decimal digits whose value fits in
the platform's unsigned word (`IntSize` bits: at most `2^64 - 1`); otherwise the error is
`timestamp field is not a unix timestamp`, in particular whenever the field has a `+`, a `-`, a
decimal point, an exponent letter, an underscore or the `x` of a hex mark in it. -/
theorem timestamp_digits_only (buf f0 f1 f2 : Bytes) (hf : Fields buf = [f0, f1, f2])
    (h0 : InitialValidationB f0 (GetVersionB f0) = none) (h1 : strconv.ParseFloat f1 32 = none) :
    (ValidatePacket buf = none ↔
      f2 ≠ [] ∧ (∀ b ∈ f2, 0x30 ≤ b.toNat ∧ b.toNat ≤ 0x39) ∧
        strconv.decimalValue f2 < 2 ^ strconv.IntSize) ∧
    (ValidatePacket buf ≠ none → ValidatePacket buf = some .timestampNotUnix) ∧
    ((∃ b ∈ f2, b.toNat = 0x2B ∨ b.toNat = 0x2D ∨ b.toNat = 0x2E ∨ b.toNat = 0x65 ∨
        b.toNat = 0x45 ∨ b.toNat = 0x5F ∨ b.toNat = 0x78 ∨ b.toNat = 0x58) →
      ValidatePacket buf = some .timestampNotUnix) := by
  have hv := ValidatePacket_of_fields buf f0 f1 f2 hf
  rw [h0, h1] at hv
  have key := strconv.ParseUint_ten_iff f2
  cases hp : strconv.ParseUint f2 10 0 with
  | ok n =>
    have hn : ValidatePacket buf = none := by rw [hv, hp]
    have hd := key.mp ⟨n, hp⟩
    refine ⟨⟨fun _ => hd, fun _ => hn⟩, fun h => absurd hn h, ?_⟩
    rintro ⟨b, hb, hc⟩
    have := hd.2.1 b hb
    omega
  | error e =>
    have hn : ValidatePacket buf = some .timestampNotUnix := by rw [hv, hp]
    refine ⟨⟨fun h => ?_, fun h => ?_⟩, fun _ => hn, fun _ => hn⟩
    · rw [hn] at h; cases h
    · obtain ⟨m, hm⟩ := key.mpr h
      rw [hp] at hm; cases hm

/-- C18, on the timestamps `1700000000`, `18446744073709551616` (one above `2^64 - 1`) and
`+17`. -/
theorem timestamp_digits_only_witness :
    ValidatePacket (str "foo.bar 42 1700000000") = none ∧
    ValidatePacket (str "foo.bar 42 18446744073709551616") = some .timestampNotUnix ∧
    ValidatePacket (str "foo.bar 42 +17") = some .timestampNotUnix :=
  ⟨(timestamp_digits_only (str "foo.bar 42 1700000000") (str "foo.bar") (str "42")
      (str "1700000000") (by decide) (by decide) (by decide)).1.mpr
      ⟨by decide, by decide, by decide⟩,
   (timestamp_digits_only (str "foo.bar 42 18446744073709551616") (str "foo.bar") (str "42")
      (str "18446744073709551616") (by decide) (by decide) (by decide)).2.1 (by decide),
   (timestamp_digits_only (str "foo.bar 42 +17") (str "foo.bar") (str "42")
      (str "+17") (by decide) (by decide) (by decide)).2.2 ⟨0x2B, by decide, by decide⟩⟩

end metrics20

/-! ## Metric specs -/

namespace metrics20

open strings metricVersion

theorem lookup_cons_eq (k a b : Bytes) (t : Tags) :
    List.lookup k ((a, b) :: t) = if k = a then some b else List.lookup k t := by
  by_cases h : k = a
  · subst h; simp [List.lookup]
  · have : (k == a) = false := by simpa using h
    simp [List.lookup, this, h]

theorem Tags.get_set (t : Tags) (k v k' : Bytes) :
    (Tags.set t k v).get k' = if k' = k then some v else t.get k' := by
  induction t with
  | nil => simp [Tags.set, Tags.get, lookup_cons_eq]
  | cons p t ih =>
    obtain ⟨a, b⟩ := p
    simp only [Tags.get] at ih
    simp only [Tags.set, Tags.get]
    by_cases ha : a = k
    · subst ha
      simp only [if_true, lookup_cons_eq]
      by_cases h1 : k' = a <;> simp [h1]
    · simp only [ha, if_false, lookup_cons_eq, ih]
      by_cases h1 : k' = a
      · have : ¬ k' = k := fun e => ha (h1.symm.trans e)
        simp [h1, ha]
      · simp [h1]

theorem Tags.get_isSome_iff (t : Tags) (k : Bytes) :
    (t.get k).isSome = true ↔ k ∈ t.map Prod.fst := by
  induction t with
  | nil => simp [Tags.get, List.lookup]
  | cons p t ih =>
    obtain ⟨a, b⟩ := p
    simp only [Tags.get] at ih
    simp only [Tags.get, lookup_cons_eq, List.map_cons, List.mem_cons]
    by_cases h : k = a
    · simp [h]
    · simp [h, ih]

theorem Tags.mem_keys_set (t : Tags) (k v k' : Bytes) :
    k' ∈ (Tags.set t k v).map Prod.fst ↔ k' = k ∨ k' ∈ t.map Prod.fst := by
  rw [← Tags.get_isSome_iff, ← Tags.get_isSome_iff, Tags.get_set]
  by_cases h : k' = k <;> simp [h]

theorem nKey_ne_unit (i : Nat) : nKey i ≠ str "unit" := by
  have hn : str "n" = [0x6E] := by decide
  have hu : str "unit" = [0x75, 0x6E, 0x69, 0x74] := by decide
  intro h
  rw [nKey, hn, hu] at h
  injection h with h _
  exact absurd h (by decide)

/-- The cleaned-up unit never ends in `ps`. -/
theorem cleanUnit_not_ps (val : Bytes) :
    HasSuffix (cleanUnit (str "unit") val) (str "ps") = false := by
  have hp : str "ps" = [0x70, 0x73] := by decide
  have hs : str "/s" = [0x2F, 0x73] := by decide
  by_cases h : HasSuffix val (str "ps") = true
  · simp only [cleanUnit, h, Bool.and_true, decide_True, if_true]
    simp [HasSuffix, List.isSuffixOf, hp, hs, List.isPrefixOf]
  · simp only [Bool.not_eq_true] at h
    simp [cleanUnit, h]

theorem cleanUnit_of_ne (key val : Bytes) (h : key ≠ str "unit") : cleanUnit key val = val := by
  simp [cleanUnit, h]

theorem Split_cases (node del : Bytes) :
    2 < (Split node del).length ∨ (Split node del).length < 2 ∨
      ∃ k v, Split node del = [k, v] := by
  rcases Nat.lt_trichotomy (Split node del).length 2 with h | h | h
  · exact Or.inr (Or.inl h)
  · obtain ⟨k, v, hkv⟩ := List.length_eq_two.mp h
    exact Or.inr (Or.inr ⟨k, v, hkv⟩)
  · exact Or.inl h

theorem tagsLoop_many (del node : Bytes) (nodes : List Bytes) (i : Nat) (t : Tags)
    (h : 2 < (Split node del).length) :
    tagsLoop del (node :: nodes) i t = .error .moreThanOneEquals := by
  simp [tagsLoop, h]

theorem tagsLoop_bare (del node : Bytes) (nodes : List Bytes) (i : Nat) (t : Tags)
    (h : (Split node del).length < 2) :
    tagsLoop del (node :: nodes) i t
      = tagsLoop del nodes (i + 1) (t.set (nKey (i + 1)) node) := by
  have h' : ¬ 2 < (Split node del).length := by omega
  simp [tagsLoop, h, h']

theorem tagsLoop_pair (del node : Bytes) (nodes : List Bytes) (i : Nat) (t : Tags)
    (k v : Bytes) (h : Split node del = [k, v]) :
    tagsLoop del (node :: nodes) i t
      = if k = [] ∨ v = [] then .error .emptyTagKeyOrValue
        else if (t.get k).isSome = true then .error (.duplicateTagKey k)
        else tagsLoop del nodes (i + 1) (t.set k (cleanUnit k v)) := by
  simp only [tagsLoop, h, List.length_cons, List.length_nil, Nat.lt_irrefl, if_false,
    List.getD_cons_zero, List.getD_cons_succ, Bool.or_eq_true, decide_eq_true_eq]

theorem nodeKey_bare (del node : Bytes) (i : Nat) (h : (Split node del).length < 2) :
    nodeKey del i node = nKey (i + 1) := by
  unfold nodeKey
  split
  · next k v hk => rw [hk] at h; simp at h
  · rfl

theorem nodeKey_pair (del node : Bytes) (i : Nat) (k v : Bytes) (h : Split node del = [k, v]) :
    nodeKey del i node = k := by
  simp [nodeKey, h]

/-- A key that is no positional key keeps its value through the rest of the loop. -/
theorem tagsLoop_keeps (del : Bytes) (key x : Bytes) (hk : ∀ j, nKey j ≠ key)
    (nodes : List Bytes) (i : Nat) (t t' : Tags)
    (h : tagsLoop del nodes i t = .ok t') (hx : t.get key = some x) :
    t'.get key = some x := by
  induction nodes generalizing i t with
  | nil =>
    simp only [tagsLoop, Except.ok.injEq] at h
    rw [← h]; exact hx
  | cons node nodes ih =>
    rcases Split_cases node del with hs | hs | ⟨k, v, hs⟩
    · rw [tagsLoop_many del node nodes i t hs] at h; cases h
    · rw [tagsLoop_bare del node nodes i t hs] at h
      refine ih _ _ h ?_
      rw [Tags.get_set, if_neg (fun e => hk (i + 1) e.symm)]
      exact hx
    · rw [tagsLoop_pair del node nodes i t k v hs] at h
      split_ifs at h with h1 h2
      refine ih _ _ h ?_
      rw [Tags.get_set]
      have : key ≠ k := by
        intro e
        rw [← e, hx] at h2
        simp at h2
      rw [if_neg this]
      exact hx

/-- A unit node puts its cleaned-up value under `unit`. -/
theorem tagsLoop_unit (del : Bytes) (nodes : List Bytes) (i : Nat) (t t' : Tags)
    (h : tagsLoop del nodes i t = .ok t') (node val : Bytes) (hn : node ∈ nodes)
    (hs : Split node del = [str "unit", val]) :
    t'.get (str "unit") = some (cleanUnit (str "unit") val) := by
  induction nodes generalizing i t with
  | nil => cases hn
  | cons n nodes ih =>
    rcases List.mem_cons.mp hn with hn | hn
    · subst hn
      rw [tagsLoop_pair del node nodes i t _ _ hs] at h
      split_ifs at h with h1 h2
      exact tagsLoop_keeps del _ _ nKey_ne_unit nodes _ _ _ h (by rw [Tags.get_set, if_pos rfl])
    · rcases Split_cases n del with hs' | hs' | ⟨k, v, hs'⟩
      · rw [tagsLoop_many del n nodes i t hs'] at h; cases h
      · rw [tagsLoop_bare del n nodes i t hs'] at h
        exact ih _ _ h hn
      · rw [tagsLoop_pair del n nodes i t k v hs'] at h
        split_ifs at h with h1 h2
        exact ih _ _ h hn

/-- The value under `unit` never ends in `ps`. -/
theorem tagsLoop_unit_clean (del : Bytes) (nodes : List Bytes) (i : Nat) (t t' : Tags)
    (h : tagsLoop del nodes i t = .ok t')
    (ht : ∀ u, t.get (str "unit") = some u → HasSuffix u (str "ps") = false) :
    ∀ u, t'.get (str "unit") = some u → HasSuffix u (str "ps") = false := by
  induction nodes generalizing i t with
  | nil =>
    simp only [tagsLoop, Except.ok.injEq] at h
    rw [← h]; exact ht
  | cons n nodes ih =>
    rcases Split_cases n del with hs | hs | ⟨k, v, hs⟩
    · rw [tagsLoop_many del n nodes i t hs] at h; cases h
    · rw [tagsLoop_bare del n nodes i t hs] at h
      refine ih _ _ h ?_
      intro u hu
      rw [Tags.get_set, if_neg (fun e => nKey_ne_unit (i + 1) e.symm)] at hu
      exact ht u hu
    · rw [tagsLoop_pair del n nodes i t k v hs] at h
      split_ifs at h with h1 h2
      refine ih _ _ h ?_
      intro u hu
      rw [Tags.get_set] at hu
      by_cases hk : str "unit" = k
      · rw [if_pos hk] at hu
        injection hu with hu
        rw [← hu, ← hk]
        exact cleanUnit_not_ps v
      · rw [if_neg hk] at hu
        exact ht u hu

/-- Every tag other than `unit` holds, as it stands, the value of a node `key<delimiter>value`
or a whole node without delimiter. -/
theorem tagsLoop_verbatim (del : Bytes) (all : List Bytes) (nodes : List Bytes) (i : Nat)
    (t t' : Tags) (h : tagsLoop del nodes i t = .ok t') (hsub : ∀ n ∈ nodes, n ∈ all)
    (ht : ∀ key value, key ≠ str "unit" → t.get key = some value →
      ∃ node ∈ all, Split node del = [key, value] ∨
        ((Split node del).length < 2 ∧ value = node ∧ ∃ j, key = nKey j)) :
    ∀ key value, key ≠ str "unit" → t'.get key = some value →
      ∃ node ∈ all, Split node del = [key, value] ∨
        ((Split node del).length < 2 ∧ value = node ∧ ∃ j, key = nKey j) := by
  induction nodes generalizing i t with
  | nil =>
    simp only [tagsLoop, Except.ok.injEq] at h
    rw [← h]; exact ht
  | cons n nodes ih =>
    have hn : n ∈ all := hsub n (List.mem_cons_self _ _)
    have hsub' : ∀ m ∈ nodes, m ∈ all := fun m hm => hsub m (List.mem_cons_of_mem _ hm)
    rcases Split_cases n del with hs | hs | ⟨k, v, hs⟩
    · rw [tagsLoop_many del n nodes i t hs] at h; cases h
    · rw [tagsLoop_bare del n nodes i t hs] at h
      refine ih _ _ h hsub' ?_
      intro key value hk hg
      rw [Tags.get_set] at hg
      by_cases he : key = nKey (i + 1)
      · rw [if_pos he] at hg
        injection hg with hg
        exact ⟨n, hn, Or.inr ⟨hs, hg.symm, i + 1, he⟩⟩
      · rw [if_neg he] at hg
        exact ht key value hk hg
    · rw [tagsLoop_pair del n nodes i t k v hs] at h
      split_ifs at h with h1 h2
      refine ih _ _ h hsub' ?_
      intro key value hk hg
      rw [Tags.get_set] at hg
      by_cases he : key = k
      · rw [if_pos he] at hg
        injection hg with hg
        subst he
        rw [cleanUnit_of_ne key v hk] at hg
        exact ⟨n, hn, Or.inl (by rw [hs, hg])⟩
      · rw [if_neg he] at hg
        exact ht key value hk hg

end metrics20

namespace metrics20

open strings metricVersion

theorem badNode_congr (del node : Bytes) (ks ks' : List Bytes) (h : ∀ k, k ∈ ks ↔ k ∈ ks') :
    badNode del ks node ↔ badNode del ks' node := by
  simp only [badNode, h]

/-- Passing over a node that is fine moves its key from the nodes to come to the tags built. -/
theorem badNode_shift (del n : Bytes) (nodes : List Bytes) (i : Nat) (t : Tags) (a b : Bytes)
    (hkey : nodeKey del i n = a) (hfine : ¬ badNode del (t.map Prod.fst) n) :
    (∃ pre node post, nodes = pre ++ node :: post ∧
        badNode del ((t.set a b).map Prod.fst ++ builtKeys del pre (i + 1)) node) ↔
    (∃ pre node post, n :: nodes = pre ++ node :: post ∧
        badNode del (t.map Prod.fst ++ builtKeys del pre i) node) := by
  have hmem : ∀ (pre : List Bytes) (k : Bytes),
      k ∈ (t.set a b).map Prod.fst ++ builtKeys del pre (i + 1) ↔
        k ∈ t.map Prod.fst ++ builtKeys del (n :: pre) i := by
    intro pre k
    simp only [List.mem_append, Tags.mem_keys_set, builtKeys, hkey, List.mem_cons]
    tauto
  constructor
  · rintro ⟨pre, node, post, hn, hb⟩
    exact ⟨n :: pre, node, post, by rw [hn]; rfl,
      (badNode_congr del node _ _ (hmem pre)).mp hb⟩
  · rintro ⟨pre, node, post, hn, hb⟩
    cases pre with
    | nil =>
      simp only [List.nil_append, List.cons.injEq] at hn
      obtain ⟨hn1, _⟩ := hn
      subst hn1
      simp only [builtKeys, List.append_nil] at hb
      exact absurd hb hfine
    | cons p pre =>
      simp only [List.cons_append, List.cons.injEq] at hn
      obtain ⟨hn1, hn2⟩ := hn
      subst hn1
      exact ⟨pre, node, post, hn2, (badNode_congr del node _ _ (hmem pre)).mpr hb⟩

/-- The loop of `NewMetricSpec` fails exactly when some node is bad with respect to the keys of
the tags built before it. -/
theorem tagsLoop_error_iff (del : Bytes) (hd : del ≠ []) (nodes : List Bytes) (i : Nat)
    (t : Tags) :
    (∃ e, tagsLoop del nodes i t = .error e) ↔
      ∃ pre node post, nodes = pre ++ node :: post ∧
        badNode del (t.map Prod.fst ++ builtKeys del pre i) node := by
  induction nodes generalizing i t with
  | nil => simp [tagsLoop]
  | cons n nodes ih =>
    have hlen := Split_length n del hd
    rcases Split_cases n del with hs | hs | ⟨k, v, hs⟩
    · constructor
      · intro _
        exact ⟨[], n, nodes, rfl, Or.inl (by omega)⟩
      · intro _
        exact ⟨_, tagsLoop_many del n nodes i t hs⟩
    · rw [tagsLoop_bare del n nodes i t hs, ih]
      refine badNode_shift del n nodes i t _ _ (nodeKey_bare del n i hs) ?_
      rintro (h | ⟨k, v, h, _⟩)
      · omega
      · rw [h] at hs; simp at hs
    · rw [tagsLoop_pair del n nodes i t k v hs]
      by_cases h1 : k = [] ∨ v = []
      · rw [if_pos h1]
        constructor
        · intro _
          refine ⟨[], n, nodes, rfl, Or.inr ⟨k, v, hs, ?_⟩⟩
          rcases h1 with h1 | h1
          · exact Or.inl h1
          · exact Or.inr (Or.inl h1)
        · intro _; exact ⟨_, rfl⟩
      · rw [if_neg h1]
        by_cases h2 : (t.get k).isSome = true
        · rw [if_pos h2]
          constructor
          · intro _
            refine ⟨[], n, nodes, rfl, Or.inr ⟨k, v, hs, Or.inr (Or.inr ?_)⟩⟩
            simp only [builtKeys, List.append_nil]
            exact (Tags.get_isSome_iff t k).mp h2
          · intro _; exact ⟨_, rfl⟩
        · rw [if_neg h2, ih]
          refine badNode_shift del n nodes i t _ _ (nodeKey_pair del n i k v hs) ?_
          rintro (h | ⟨k', v', h, hk⟩)
          · rw [hs] at hlen; simp at hlen; omega
          · rw [hs] at h
            simp only [List.cons.injEq, and_true] at h
            obtain ⟨e1, e2⟩ := h
            subst e1 e2
            rcases hk with hk | hk | hk
            · exact h1 (Or.inl hk)
            · exact h1 (Or.inr hk)
            · exact h2 ((Tags.get_isSome_iff t k).mpr hk)

theorem TagDelimiter_ne_nil (v : metricVersion) (del : Bytes) (h : TagDelimiter v = some del) :
    del ≠ [] := by
  cases v <;> simp [TagDelimiter] at h <;> subst h <;> decide

/-- What `NewMetricSpec` does, case by case. -/
theorem NewMetricSpec_eq (id : Bytes) :
    NewMetricSpec id =
      match InitialValidation id (GetVersion id) with
      | some err => .error err
      | none =>
        match TagDelimiter (GetVersion id) with
        | none => .panicked
        | some del =>
          match tagsLoop del (Split id (str ".")) 0 [] with
          | .error err => .error err
          | .ok tags => .ok ⟨id, tags⟩ := rfl

/-- A successful `NewMetricSpec` went through validation and the loop. -/
theorem NewMetricSpec_ok (id : Bytes) (m : MetricSpec) (h : NewMetricSpec id = .ok m) :
    InitialValidation id (GetVersion id) = none ∧
    ∃ del, TagDelimiter (GetVersion id) = some del ∧
      tagsLoop del (Split id (str ".")) 0 [] = .ok m.Tags ∧ m.Id = id := by
  rw [NewMetricSpec_eq] at h
  cases h0 : InitialValidation id (GetVersion id) with
  | some e => simp [h0] at h
  | none =>
    cases h1 : TagDelimiter (GetVersion id) with
    | none => simp [h0, h1] at h
    | some del =>
      cases h2 : tagsLoop del (Split id (str ".")) 0 [] with
      | error e => simp [h0, h1, h2] at h
      | ok tags =>
        simp only [h0, h1, h2, Outcome.ok.injEq] at h
        subst h
        exact ⟨rfl, del, rfl, h2, rfl⟩

end metrics20

namespace metrics20

open strings metricVersion

/-- C15, evaluated where it fails: on `n2=x.bar.unit=B.target_type=c` `NewMetricSpec` succeeds,
the first node is `n2=x` (key `n2`, value `x`), and the result has `Tags[n2] = bar`, the second
node, which is a bare node and was filed under its positional key `n2` without a look at the
tags already there. With the two in the other order (`bar.n1=x...`) the key-value branch does
look, and reports the duplicate. -/
theorem positional_tag_overwrites :
    NewMetricSpec (str "n2=x.bar.unit=B.target_type=c")
      = .ok ⟨str "n2=x.bar.unit=B.target_type=c",
          [(str "n2", str "bar"), (str "unit", str "B"), (str "target_type", str "c")]⟩ ∧
    Split (str "n2=x.bar.unit=B.target_type=c") (str ".")
      = [str "n2=x", str "bar", str "unit=B", str "target_type=c"] ∧
    Split (str "n2=x") (str "=") = [str "n2", str "x"] ∧
    NewMetricSpec (str "bar.n1=x.unit=B.target_type=c")
      = .error (.duplicateTagKey (str "n1")) := by
  decide

/-- C16: on an id on which `NewMetricSpec` succeeds, the value of a unit node that ends in `ps`
is stored under `unit` with its final `ps` replaced by `/s`, any other value of a unit node is
stored unchanged; so `Tags[unit]` never ends in `ps`; and no other tag is rewritten: a tag
under another key holds, as it stands, the value of a node `key<delimiter>value` or a whole
node without delimiter (under a positional key). -/
theorem unit_cleanup (id del : Bytes) (m : MetricSpec) (h : NewMetricSpec id = .ok m)
    (hd : TagDelimiter (GetVersion id) = some del) :
    (∀ node ∈ Split id (str "."), ∀ val, Split node del = [str "unit", val] →
      m.Tags.get (str "unit")
        = some (if HasSuffix val (str "ps") = true then val.take (val.length - 2) ++ str "/s"
                else val)) ∧
    (∀ u, m.Tags.get (str "unit") = some u → HasSuffix u (str "ps") = false) ∧
    (∀ key value, key ≠ str "unit" → m.Tags.get key = some value →
      ∃ node ∈ Split id (str "."), Split node del = [key, value] ∨
        ((Split node del).length < 2 ∧ value = node ∧ ∃ j, key = nKey j)) := by
  obtain ⟨_, del', hd', hloop, _⟩ := NewMetricSpec_ok id m h
  rw [hd] at hd'
  injection hd' with hd'
  subst hd'
  refine ⟨fun node hn val hs => ?_, ?_, ?_⟩
  · have := tagsLoop_unit del _ 0 [] m.Tags hloop node val hn hs
    rw [this]
    simp [cleanUnit]
  · exact tagsLoop_unit_clean del _ 0 [] m.Tags hloop (by simp [Tags.get])
  · exact tagsLoop_verbatim del _ _ 0 [] m.Tags hloop (fun n hn => hn) (by simp [Tags.get])

/-- C16, on `foo.unit=Mbps.target_type=rate.speed=5ps`: the unit becomes `Mb/s`, the tag
`speed` keeps its `5ps`. -/
theorem unit_cleanup_witness :
    (⟨str "foo.unit=Mbps.target_type=rate.speed=5ps",
        [(str "n1", str "foo"), (str "unit", str "Mb/s"), (str "target_type", str "rate"),
         (str "speed", str "5ps")]⟩ : MetricSpec).Tags.get (str "unit")
      = some (if HasSuffix (str "Mbps") (str "ps") = true
          then (str "Mbps").take ((str "Mbps").length - 2) ++ str "/s" else str "Mbps") :=
  (unit_cleanup (str "foo.unit=Mbps.target_type=rate.speed=5ps") (str "=")
    ⟨str "foo.unit=Mbps.target_type=rate.speed=5ps",
      [(str "n1", str "foo"), (str "unit", str "Mb/s"), (str "target_type", str "rate"),
       (str "speed", str "5ps")]⟩ (by decide) (by decide)).1
    (str "unit=Mbps") (by decide) (str "Mbps") (by decide)

/-- The failure condition of `NewMetricSpec` for an id whose version has the tag delimiter
`del`. -/
theorem NewMetricSpec_error_iff (id del : Bytes)
    (hd : TagDelimiter (GetVersion id) = some del) :
    ((∃ e, NewMetricSpec id = .error e) ↔
      InitialValidation id (GetVersion id) ≠ none ∨
      ∃ pre node post, Split id (str ".") = pre ++ node :: post ∧
        badNode del (builtKeys del pre 0) node) ∧
    NewMetricSpec id ≠ .panicked ∧
    (∀ e, NewMetricSpec id = .error e → ¬ ∃ m, NewMetricSpec id = .ok m) := by
  have hne := TagDelimiter_ne_nil _ _ hd
  have key := tagsLoop_error_iff del hne (Split id (str ".")) 0 []
  simp only [List.map_nil, List.nil_append] at key
  cases h0 : InitialValidation id (GetVersion id) with
  | some e =>
    have hN : NewMetricSpec id = .error e := by rw [NewMetricSpec_eq, h0]
    rw [hN]
    exact ⟨⟨fun _ => Or.inl (by simp), fun _ => ⟨e, rfl⟩⟩, by simp, by simp⟩
  | none =>
    cases h2 : tagsLoop del (Split id (str ".")) 0 [] with
    | error e =>
      have hN : NewMetricSpec id = .error e := by simp only [NewMetricSpec_eq, h0, hd, h2]
      rw [hN]
      exact ⟨⟨fun _ => Or.inr (key.mp ⟨e, h2⟩), fun _ => ⟨e, rfl⟩⟩, by simp, by simp⟩
    | ok tags =>
      have hN : NewMetricSpec id = .ok ⟨id, tags⟩ := by
        simp only [NewMetricSpec_eq, h0, hd, h2]
      rw [hN]
      refine ⟨⟨fun h => ?_, fun h => ?_⟩, by simp, by simp⟩
      · obtain ⟨e, he⟩ := h; cases he
      · rcases h with h | h
        · exact absurd rfl h
        · obtain ⟨e, he⟩ := key.mpr h
          rw [h2] at he; cases he

/-- C19: for an id whose version is `M20` or `M20NoEquals`, `del` being the tag delimiter of
that version (`=` or `_is_`), `NewMetricSpec` returns an error exactly when `InitialValidation`
fails or some node of the id is bad: it contains the delimiter more than once
(`strings.Count`, which counts instances that do not overlap), or it is `key<delimiter>value`
with an empty key, an empty value, or a key that is among the keys of the tags built from the
nodes before it (the key of a key-value node, the positional key `n<i>` of a bare node). It
never panics on such an id, and an error comes without a spec. -/
theorem NewMetricSpec_fails_iff (id : Bytes)
    (hv : GetVersion id = M20 ∨ GetVersion id = M20NoEquals) :
    ∃ del, TagDelimiter (GetVersion id) = some del ∧
      ((∃ e, NewMetricSpec id = .error e) ↔
        InitialValidation id (GetVersion id) ≠ none ∨
        ∃ pre node post, Split id (str ".") = pre ++ node :: post ∧
          badNode del (builtKeys del pre 0) node) ∧
      NewMetricSpec id ≠ .panicked ∧
      (∀ e, NewMetricSpec id = .error e → ¬ ∃ m, NewMetricSpec id = .ok m) := by
  have hd : ∃ del, TagDelimiter (GetVersion id) = some del := by
    rcases hv with h | h <;> rw [h] <;> simp [TagDelimiter]
  obtain ⟨del, hd⟩ := hd
  exact ⟨del, hd, NewMetricSpec_error_iff id del hd⟩

/-- C19, on the id `foo.n1=x.unit=B.target_type=c`, whose node `n1=x` has the key of the
positional tag built from `foo`. -/
theorem NewMetricSpec_fails_iff_witness :
    ∃ e, NewMetricSpec (str "foo.n1=x.unit=B.target_type=c") = .error e := by
  obtain ⟨del, hd, h, _⟩ :=
    NewMetricSpec_fails_iff (str "foo.n1=x.unit=B.target_type=c") (Or.inl (by decide))
  have hd' : TagDelimiter (GetVersion (str "foo.n1=x.unit=B.target_type=c")) = some (str "=") := by
    decide
  rw [hd'] at hd
  injection hd with hd
  subst hd
  exact h.mpr (Or.inr ⟨[str "foo"], str "n1=x", [str "unit=B", str "target_type=c"],
    by decide, Or.inr ⟨str "n1", str "x", by decide, Or.inr (Or.inr (by decide))⟩⟩)

/-- C20, evaluated where it fails: `foo.bar` is a `Legacy` id that passes `InitialValidation`,
and `NewMetricSpec` then calls `TagDelimiter` on `Legacy`, which panics; `NewMetricSpec` panics
on exactly the ids that are `Legacy` and pass `InitialValidation`. -/
theorem NewMetricSpec_panics_on_Legacy :
    GetVersion (str "foo.bar") = Legacy ∧
    InitialValidation (str "foo.bar") Legacy = none ∧
    NewMetricSpec (str "foo.bar") = .panicked ∧
    ∀ id, (NewMetricSpec id = .panicked ↔
      GetVersion id = Legacy ∧ InitialValidation id Legacy = none) := by
  refine ⟨by decide, by decide, by decide, fun id => ?_⟩
  rw [NewMetricSpec_eq]
  cases hv : GetVersion id with
  | Legacy =>
    cases h0 : InitialValidation id Legacy with
    | some e => simp
    | none => simp [TagDelimiter]
  | M20 =>
    cases h0 : InitialValidation id M20 with
    | some e => simp
    | none =>
      simp only [TagDelimiter, if_true]
      cases tagsLoop (str "=") (Split id (str ".")) 0 [] <;> simp
  | M20NoEquals =>
    cases h0 : InitialValidation id M20NoEquals with
    | some e => simp
    | none =>
      simp only [TagDelimiter, reduceCtorEq, if_false, if_true]
      cases tagsLoop (str "_is_") (Split id (str ".")) 0 [] <;> simp

end metrics20

namespace relay

/-- C17, evaluated where it fails: when the config file cannot be decoded, and when the log
level is unrecognized, `main` logs the error and returns, so the process ends with status 0
(not 1); when the instance is empty, the maximum age does not parse or an init command fails,
it ends with status 1. Status 0 is how start-up ends exactly in the first two cases, and in
none of the five cases is the listening stage reached. -/
theorem config_error_exit_status :
    main { Startup.good with decodeErr := true } = .exit 0 ∧
    main { Startup.good with Log_level := str "verbose" } = .exit 0 ∧
    main { Startup.good with Instance := str "" } = .exit 1 ∧
    main { Startup.good with maxAgeErr := true } = .exit 1 ∧
    main { Startup.good with Init := [false, true] } = .exit 1 ∧
    main Startup.good = .listening ∧
    (∀ env, (main env = .exit 0 ↔
      env.decodeErr = true ∨ levels.contains env.Log_level = false)) ∧
    (∀ env, env.decodeErr = true ∨ levels.contains env.Log_level = false ∨
        env.Instance = [] ∨ env.maxAgeErr = true ∨ initFails env.Init = true →
      main env ≠ .listening) := by
  refine ⟨by decide, by decide, by decide, by decide, by decide, by decide, fun env => ?_,
    fun env h => ?_⟩
  · unfold main
    split_ifs <;> simp_all
  · unfold main
    split_ifs <;> simp_all

end relay
